import Mathlib

/-!
Verification of the metadata round-trip subsystem of the Gemini EXIF Data
Embedder repository.

The repository embeds a JSON-serialized GenerationRecord into the EXIF
ImageDescription tag (tag 270) of a JPEG, and extracts it back on upload.
The JavaScript runtime functions JSON.parse and JSON.stringify are modelled
by an executable JSON parser and printer over an explicit JSON value type
JVal; JSON numbers are kept as their literal text, since the application
never computes with them.  The piexif library and the canvas re-encoding
step are modelled at their interface: an image either decodes or does not,
EXIF insertion either succeeds or throws, and piexif.load either yields the
0th IFD contents or throws.

All definitions mirror the source files src/App.tsx, src/state/AppContext.tsx,
src/services/geminiService.ts, src/components/MetadataViewer.tsx,
src/components/ImageGeneratorForm.tsx and the revision in
src/unnamed/part_010, as noted at each definition.
-/

namespace GeminiExif

/-! ## JSON values

JSON.parse produces JavaScript values; JVal models them.  A number is kept
as its literal source text (the application never inspects numeric values,
only truthiness).  An object is a list of key/value pairs in source order;
duplicate keys are resolved last-wins, as in JavaScript.
-/

inductive JVal : Type where
  | null : JVal
  | bool (b : Bool) : JVal
  | num (lit : String) : JVal
  | str (s : String) : JVal
  | arr (elems : List JVal) : JVal
  | obj (fields : List (String × JVal)) : JVal

/-- Property access j[k] on a JavaScript value: defined only on objects,
last occurrence of a duplicated key wins. -/
def jGet (j : JVal) (k : String) : Option JVal :=
  match j with
  | .obj fields => ((fields.reverse).find? (fun p => p.1 == k)).map (·.2)
  | _ => none

/-- Character of a JSON whitespace: space, tab, line feed, carriage return. -/
def isWsChar (c : Char) : Bool :=
  c == ' ' || c == '\t' || c == '\n' || c == '\r'

/-- A list of JSON whitespace characters. -/
def IsWsL (l : List Char) : Prop := ∀ c ∈ l, isWsChar c = true

/-- Characters that can occur in a JSON number literal. -/
def isNumChar (c : Char) : Bool :=
  c.isDigit || c == '+' || c == '-' || c == '.' || c == 'e' || c == 'E'

/-- Remainder of a number literal after the optional leading minus sign. -/
def numAfterSign (l : List Char) : List Char :=
  match l with
  | '-' :: t => t
  | t => t

/-- Consume the integer part: a single 0, or a nonzero digit followed by
digits.  Returns the remainder, or none if the shape is wrong. -/
def numAfterInt (l : List Char) : Option (List Char) :=
  match l with
  | [] => none
  | c :: t =>
    if c = '0' then some t
    else if c.isDigit then some (t.dropWhile Char.isDigit)
    else none

/-- Consume an optional fraction part: a dot followed by one or more digits. -/
def numAfterFrac (l : List Char) : Option (List Char) :=
  match l with
  | '.' :: t =>
    match t with
    | [] => none
    | c :: _ => if c.isDigit then some (t.dropWhile Char.isDigit) else none
  | t => some t

/-- Consume an optional exponent part: e or E, an optional sign, digits. -/
def numAfterExp (l : List Char) : Option (List Char) :=
  match l with
  | c :: t =>
    if c = 'e' ∨ c = 'E' then
      let t' := match t with
        | '+' :: u => u
        | '-' :: u => u
        | u => u
      match t' with
      | [] => none
      | d :: _ => if d.isDigit then some (t'.dropWhile Char.isDigit) else none
    else some (c :: t)
  | [] => some []

/-- The RFC 8259 number grammar as a checker on the literal text.  The
final conjunct, that every character is drawn from the number alphabet, is
implied by the grammar; carrying it makes the maximal-munch argument in the
parser proofs direct. -/
def isValidNumLit (l : List Char) : Bool :=
  (match numAfterInt (numAfterSign l) with
   | none => false
   | some t =>
     match numAfterFrac t with
     | none => false
     | some t' =>
       match numAfterExp t' with
       | none => false
       | some t'' => t''.isEmpty) && l.all isNumChar

/-- A string of decimal digits as a natural number. -/
def digitsToNat (l : List Char) : Nat :=
  l.foldl (fun acc c => acc * 10 + (c.toNat - '0'.toNat)) 0

/-- Mantissa digits and decimal exponent of a number literal: up to sign,
the literal denotes mantissa * 10 ^ exponent. -/
def numParts (l : List Char) : Nat × Int :=
  let l₁ := numAfterSign l
  let intPart := l₁.takeWhile (fun c => c.isDigit)
  let afterInt := l₁.drop intPart.length
  let fracPart :=
    match afterInt with
    | '.' :: t => t.takeWhile (fun c => c.isDigit)
    | _ => []
  let afterFrac :=
    match afterInt with
    | '.' :: t => t.drop (t.takeWhile (fun c => c.isDigit)).length
    | t => t
  let expVal : Int :=
    match afterFrac with
    | c :: t =>
      if c = 'e' ∨ c = 'E' then
        match t with
        | '-' :: u => -(digitsToNat u : Int)
        | '+' :: u => (digitsToNat u : Int)
        | u => (digitsToNat u : Int)
      else 0
    | [] => 0
  (digitsToNat (intPart ++ fracPart), expVal - fracPart.length)

/-- JavaScript truthiness of a number, at the value level: the literal is
falsy exactly when the IEEE-754 double it evaluates to is ±0, that is when
the mantissa digits are all zero or the magnitude m * 10 ^ e underflows,
being at most 2 ^ (-1075), half the least subnormal (the tie rounds to the
even mantissa, zero).  A literal of n characters has mantissa below
10 ^ n, so an exponent below -(n + 325) underflows outright; otherwise the
comparison m * 2 ^ 1075 ≤ 10 ^ (-e) is computed exactly. -/
def numLitIsZero (l : List Char) : Bool :=
  let p := numParts l
  if p.1 = 0 then true
  else if 0 ≤ p.2 then false
  else
    let k := (-p.2).toNat
    if l.length + 325 ≤ k then true
    else decide (p.1 * 2 ^ 1075 ≤ 10 ^ k)

/-- JavaScript truthiness of the result of a property access: undefined,
null, false, 0 and the empty string are falsy, everything else truthy. -/
def jTruthy (o : Option JVal) : Bool :=
  match o with
  | none => false
  | some .null => false
  | some (.bool b) => b
  | some (.num lit) => !numLitIsZero lit.data
  | some (.str s) => !(s == "")
  | some (.arr _) => true
  | some (.obj _) => true

/-- Whether a JavaScript value is JSON null: among JSON.parse results,
accessing a property of null, and only of null, throws a TypeError. -/
def jIsNull : JVal → Bool
  | .null => true
  | _ => false

/-- Property access that also requires the value to be a string. -/
def jGetStr (j : JVal) (k : String) : Option String :=
  match jGet j k with
  | some (.str s) => some s
  | _ => none

/-! ## JSON.parse

An executable recursive-descent parser for RFC 8259 JSON, modelling the
JavaScript JSON.parse.  Structural recursion is over an explicit fuel
argument; the entry point supplies input length plus one, which the
completeness proof below shows is always enough.  One modelling limitation:
a \\u escape encoding half of a surrogate pair is rejected rather than
combined with its partner (the printer below never emits one, so the
round-trip development is unaffected).
-/

/-- Drop leading JSON whitespace. -/
def skipWs : List Char → List Char
  | [] => []
  | c :: cs => if isWsChar c then skipWs cs else c :: cs

/-- Value of a hexadecimal digit. -/
def hexVal? (c : Char) : Option Nat :=
  if '0' ≤ c ∧ c ≤ '9' then some (c.toNat - '0'.toNat)
  else if 'a' ≤ c ∧ c ≤ 'f' then some (c.toNat - 'a'.toNat + 10)
  else if 'A' ≤ c ∧ c ≤ 'F' then some (c.toNat - 'F'.toNat + 10)
  else none

/-- One input character of a string literal other than the closing quote:
a backslash escape yields its decoded character (consuming the escape), a
raw control character is rejected, anything else stands for itself. -/
def strStep (c : Char) (cs : List Char) : Option (Char × List Char) :=
  if c = '\\' then
    match cs with
    | [] => none
    | e :: cs' =>
      if e = '"' then some ('"', cs')
      else if e = '\\' then some ('\\', cs')
      else if e = '/' then some ('/', cs')
      else if e = 'b' then some ('\x08', cs')
      else if e = 'f' then some ('\x0c', cs')
      else if e = 'n' then some ('\n', cs')
      else if e = 'r' then some ('\r', cs')
      else if e = 't' then some ('\t', cs')
      else if e = 'u' then
        match cs' with
        | c₁ :: c₂ :: c₃ :: c₄ :: cs'' =>
          match hexVal? c₁, hexVal? c₂, hexVal? c₃, hexVal? c₄ with
          | some v₁, some v₂, some v₃, some v₄ =>
            let n := ((v₁ * 16 + v₂) * 16 + v₃) * 16 + v₄
            if n < 0xd800 ∨ 0xe000 ≤ n then some (Char.ofNat n, cs'')
            else none
          | _, _, _, _ => none
        | _ => none
      else none
  else if c.toNat < 0x20 then none
  else some (c, cs)

/-- Body of a string literal, after the opening quote.  Returns the decoded
characters and the remainder after the closing quote. -/
def pStrBody (fuel : Nat) (cs : List Char) : Option (List Char × List Char) :=
  match fuel, cs with
  | 0, _ => none
  | _, [] => none
  | fuel + 1, c :: cs =>
    if c = '"' then some ([], cs)
    else
      match strStep c cs with
      | some (d, cs') => (pStrBody fuel cs').map (fun p => (d :: p.1, p.2))
      | none => none

/-- A number token: the maximal span of number-alphabet characters,
validated against the number grammar. -/
def pNum (cs : List Char) : Option (String × List Char) :=
  let span := cs.takeWhile isNumChar
  if isValidNumLit span then some (⟨span⟩, cs.dropWhile isNumChar) else none

mutual

/-- A JSON value, after skipping leading whitespace. -/
def pVal : Nat → List Char → Option (JVal × List Char)
  | 0, _ => none
  | fuel + 1, cs =>
    match skipWs cs with
    | [] => none
    | c :: cs' =>
      if c = 'n' then
        match cs' with
        | 'u' :: 'l' :: 'l' :: r => some (.null, r)
        | _ => none
      else if c = 't' then
        match cs' with
        | 'r' :: 'u' :: 'e' :: r => some (.bool true, r)
        | _ => none
      else if c = 'f' then
        match cs' with
        | 'a' :: 'l' :: 's' :: 'e' :: r => some (.bool false, r)
        | _ => none
      else if c = '"' then
        (pStrBody (cs'.length + 1) cs').map (fun p => (.str ⟨p.1⟩, p.2))
      else if c = '[' then
        let cs'' := skipWs cs'
        if cs''.head? = some ']' then some (.arr [], cs''.tail)
        else (pElems fuel cs'').map (fun p => (.arr p.1, p.2))
      else if c = '\x7b' then
        let cs'' := skipWs cs'
        if cs''.head? = some '\x7d' then some (.obj [], cs''.tail)
        else (pFields fuel cs'').map (fun p => (.obj p.1, p.2))
      else if c.isDigit ∨ c = '-' then
        (pNum (c :: cs')).map (fun p => (.num p.1, p.2))
      else none

/-- One or more array elements followed by the closing bracket. -/
def pElems : Nat → List Char → Option (List JVal × List Char)
  | 0, _ => none
  | fuel + 1, cs =>
    match pVal fuel cs with
    | none => none
    | some (v, r) =>
      let r₀ := skipWs r
      if r₀.head? = some ',' then
        (pElems fuel r₀.tail).map (fun p => (v :: p.1, p.2))
      else if r₀.head? = some ']' then some ([v], r₀.tail)
      else none

/-- One or more object members followed by the closing brace. -/
def pFields : Nat → List Char → Option (List (String × JVal) × List Char)
  | 0, _ => none
  | fuel + 1, cs =>
    match skipWs cs with
    | '"' :: cs' =>
      match pStrBody (cs'.length + 1) cs' with
      | none => none
      | some (k, r) =>
        let r₀ := skipWs r
        if r₀.head? = some ':' then
          match pVal fuel r₀.tail with
          | none => none
          | some (v, r'') =>
            let r₁ := skipWs r''
            if r₁.head? = some ',' then
              (pFields fuel r₁.tail).map (fun p => ((⟨k⟩, v) :: p.1, p.2))
            else if r₁.head? = some '\x7d' then some ([(⟨k⟩, v)], r₁.tail)
            else none
        else none
    | _ => none

end

/-- The model of JSON.parse: parse one value, require only whitespace to
remain.  Some input for a successful parse, none where JSON.parse throws. -/
def parseJson (s : String) : Option JVal :=
  match pVal (s.length + 1) s.data with
  | some (v, rest) => if skipWs rest = [] then some v else none
  | none => none

/-! ## JSON.stringify -/

/-- Hexadecimal digit character, lowercase, as JSON.stringify emits. -/
def hexDigitChar (n : Nat) : Char :=
  if n < 10 then Char.ofNat ('0'.toNat + n) else Char.ofNat ('a'.toNat + (n - 10))

/-- The escape sequence (or the character itself) JSON.stringify emits for
one character of a string. -/
def escChar (c : Char) : List Char :=
  if c = '"' then ['\\', '"']
  else if c = '\\' then ['\\', '\\']
  else if c = '\x08' then ['\\', 'b']
  else if c = '\x0c' then ['\\', 'f']
  else if c = '\n' then ['\\', 'n']
  else if c = '\r' then ['\\', 'r']
  else if c = '\t' then ['\\', 't']
  else if c.toNat < 0x20 then
    ['\\', 'u', '0', '0', hexDigitChar (c.toNat / 16), hexDigitChar (c.toNat % 16)]
  else [c]

/-- Escaped form of a character list. -/
def escList : List Char → List Char
  | [] => []
  | c :: cs => escChar c ++ escList cs

/-- A JSON string literal: quote, escaped body, quote. -/
def quoteStr (s : String) : String :=
  ⟨'"' :: escList s.data ++ ['"']⟩

mutual

/-- Compact printing: JSON.stringify with no gap argument. -/
def printJ : JVal → String
  | .null => "null"
  | .bool true => "true"
  | .bool false => "false"
  | .num lit => lit
  | .str s => quoteStr s
  | .arr [] => "[]"
  | .arr (e :: es) => "[" ++ printJ e ++ printListJ es ++ "]"
  | .obj [] => "\x7b\x7d"
  | .obj ((k, v) :: fs) => "\x7b" ++ quoteStr k ++ ":" ++ printJ v ++ printFieldsJ fs ++ "\x7d"

/-- Remaining array elements, each preceded by a comma. -/
def printListJ : List JVal → String
  | [] => ""
  | e :: es => "," ++ printJ e ++ printListJ es

/-- Remaining object members, each preceded by a comma. -/
def printFieldsJ : List (String × JVal) → String
  | [] => ""
  | (k, v) :: fs => "," ++ quoteStr k ++ ":" ++ printJ v ++ printFieldsJ fs

end

/-- Indentation at nesting depth d for a two-space gap. -/
def ind (d : Nat) : String :=
  ⟨List.replicate (2 * d) ' '⟩

mutual

/-- Indented printing at depth d: JSON.stringify with a gap of 2, as used
by formatJsonDisplay in MetadataViewer.tsx and ImageGeneratorForm.tsx. -/
def prettyJ : JVal → Nat → String
  | .null, _ => "null"
  | .bool true, _ => "true"
  | .bool false, _ => "false"
  | .num lit, _ => lit
  | .str s, _ => quoteStr s
  | .arr [], _ => "[]"
  | .arr (e :: es), d =>
    "[\n" ++ ind (d + 1) ++ prettyJ e (d + 1) ++ prettyListJ es (d + 1)
      ++ "\n" ++ ind d ++ "]"
  | .obj [], _ => "\x7b\x7d"
  | .obj ((k, v) :: fs), d =>
    "\x7b\n" ++ ind (d + 1) ++ quoteStr k ++ ": " ++ prettyJ v (d + 1)
      ++ prettyFieldsJ fs (d + 1) ++ "\n" ++ ind d ++ "\x7d"

/-- Remaining array elements in indented form. -/
def prettyListJ : List JVal → Nat → String
  | [], _ => ""
  | e :: es, d => ",\n" ++ ind d ++ prettyJ e d ++ prettyListJ es d

/-- Remaining object members in indented form. -/
def prettyFieldsJ : List (String × JVal) → Nat → String
  | [], _ => ""
  | (k, v) :: fs, d => ",\n" ++ ind d ++ quoteStr k ++ ": " ++ prettyJ v d ++ prettyFieldsJ fs d

end

/-! ## JavaScript string trim -/

/-- Remove leading and trailing whitespace from a character list. -/
def trimList (l : List Char) : List Char :=
  ((l.dropWhile (fun c => isWsChar c)).reverse.dropWhile (fun c => isWsChar c)).reverse

/-- The model of the JavaScript String.prototype.trim. -/
def jsTrim (s : String) : String :=
  ⟨trimList s.data⟩

/-! ## Repository data model

From src/types.ts (the revision imported by src/state/AppContext.tsx) and
the state shape section of src/state/AppContext.tsx.
-/

/-- The union type View: generate, extract or video. -/
inductive View : Type where
  | generate | extract | video
deriving DecidableEq, Repr

/-- The union type ImageModel: the fast-edit backend
gemini-2.5-flash-image or the high-quality backend imagen-4.0-generate-001. -/
inductive ImageModel : Type where
  | flash   -- the string literal gemini-2.5-flash-image
  | imagen  -- the string literal imagen-4.0-generate-001
deriving DecidableEq, Repr

/-- The string value of an ImageModel. -/
def imageModelString : ImageModel → String
  | .flash => "gemini-2.5-flash-image"
  | .imagen => "imagen-4.0-generate-001"

/-- Recognize an ImageModel string. -/
def imageModelOfString? (s : String) : Option ImageModel :=
  if s = "gemini-2.5-flash-image" then some .flash
  else if s = "imagen-4.0-generate-001" then some .imagen
  else none

/-- The union type AspectRatio. -/
inductive AspectRatio : Type where
  | r1x1 | r16x9 | r9x16 | r4x3 | r3x4
deriving DecidableEq, Repr

/-- The string value of an AspectRatio. -/
def aspectRatioString : AspectRatio → String
  | .r1x1 => "1:1"
  | .r16x9 => "16:9"
  | .r9x16 => "9:16"
  | .r4x3 => "4:3"
  | .r3x4 => "3:4"

/-- Recognize an AspectRatio string. -/
def aspectRatioOfString? (s : String) : Option AspectRatio :=
  if s = "1:1" then some .r1x1
  else if s = "16:9" then some .r16x9
  else if s = "9:16" then some .r9x16
  else if s = "4:3" then some .r4x3
  else if s = "3:4" then some .r3x4
  else none

/-- The union type CreativeStrength. -/
inductive CreativeStrength : Type where
  | low | medium | high
deriving DecidableEq, Repr

/-- The union type PromptMode from AppContext.tsx: text or json. -/
inductive PromptMode : Type where
  | text | json
deriving DecidableEq, Repr

/-- The string value of a PromptMode. -/
def promptModeString : PromptMode → String
  | .text => "text"
  | .json => "json"

/-- Recognize a PromptMode string. -/
def promptModeOfString? (s : String) : Option PromptMode :=
  if s = "text" then some .text
  else if s = "json" then some .json
  else none

/-- The union type MobileView: form or results. -/
inductive MobileView : Type where
  | form | results
deriving DecidableEq, Repr

/-- The GenerationMetadata interface of AppContext.tsx.  Optional fields
are absent exactly when the JavaScript property is undefined. -/
structure GenerationMetadata : Type where
  model : ImageModel
  prompt : String
  originalPrompt : Option String := none
  aspectRatio : Option AspectRatio := none
  promptMode : Option PromptMode := none
  filenameSlug : Option String := none
deriving DecidableEq, Repr

/-- JSON.stringify applied to a GenerationMetadata object, at the value
level: keys in declaration order, undefined-valued keys omitted, exactly as
JSON.stringify serializes the object literals built in App.tsx. -/
def metaToJson (m : GenerationMetadata) : JVal :=
  .obj (
    [("model", JVal.str (imageModelString m.model)), ("prompt", JVal.str m.prompt)]
    ++ (match m.originalPrompt with
        | some s => [("originalPrompt", JVal.str s)]
        | none => [])
    ++ (match m.aspectRatio with
        | some a => [("aspectRatio", JVal.str (aspectRatioString a))]
        | none => [])
    ++ (match m.promptMode with
        | some pm => [("promptMode", JVal.str (promptModeString pm))]
        | none => [])
    ++ (match m.filenameSlug with
        | some s => [("filenameSlug", JVal.str s)]
        | none => []))

/-- Reading of the GenerationMetadata fields back off a JSON value, for
stating semantic equality of a round-tripped record. -/
def metaOfJson (j : JVal) : Option GenerationMetadata := do
  let modelStr ← jGetStr j "model"
  let model ← imageModelOfString? modelStr
  let prompt ← jGetStr j "prompt"
  pure { model := model, prompt := prompt,
         originalPrompt := jGetStr j "originalPrompt",
         aspectRatio := (jGetStr j "aspectRatio").bind aspectRatioOfString?,
         promptMode := (jGetStr j "promptMode").bind promptModeOfString?,
         filenameSlug := jGetStr j "filenameSlug" }

/-! ## The metadata codec (src/App.tsx lines 20-75)

The piexif library is modelled at its interface.  For extraction, an
uploaded data URL either makes piexif.load throw (not a JPEG, corrupt EXIF
segment, ...) or yields the contents of its 0th IFD; the image-description
tag 270, when present, holds either a string or a value of another runtime
type.  For embedding, the browser either decodes the source image or fires
the error handler; the canvas context may be unavailable; and
piexif.dump/piexif.insert either succeed or throw.  The tag that
piexif.insert writes is the tag piexif.load reads back.
-/

/-- A runtime value stored in an EXIF tag. -/
inductive ExifVal : Type where
  | str (s : String)
  | nonString
deriving DecidableEq, Repr

/-- The 0th IFD of a loaded EXIF block: only the image-description tag
(tag 270) is relevant to the codec. -/
structure ZerothIFD : Type where
  imageDescription : Option ExifVal
deriving DecidableEq, Repr

/-- What piexif.load yields on success. -/
structure ExifObj : Type where
  zeroth : Option ZerothIFD
deriving DecidableEq, Repr

/-- An uploaded data URL as seen through piexif.load: either the load
throws, or it yields an ExifObj. -/
inductive UploadedImage : Type where
  | loadFails
  | loaded (exifObj : ExifObj)
deriving DecidableEq, Repr

/-- The return type of extractMetadataFromImage,
GenerationMetadata | string | null: a parsed record object, the raw legacy
tag text, or null. -/
inductive ExtractResult : Type where
  | record (metadata : JVal)
  | legacy (metadataString : String)
  | notFound

/-- src/App.tsx lines 56-75 (identical in part_008, part_009 and part_010):
load the EXIF, take the image-description tag, and when it is a non-empty
string, parse it.  A parsed non-null value with truthy model and prompt
fields is the record; a parse failure, or a parse yielding JSON null
(where the metadata.model access throws a TypeError that the inner catch
turns into the tag text), is the legacy string; everything else is null,
and an exception while loading is caught and mapped to null. -/
def extractMetadataFromImage (imageDataUrl : UploadedImage) : ExtractResult :=
  match imageDataUrl with
  | .loadFails => .notFound
  | .loaded exifObj =>
    match exifObj.zeroth.bind (·.imageDescription) with
    | some (.str s) =>
      if s == "" then .notFound
      else
        match parseJson s with
        | some metadata =>
          if jIsNull metadata then .legacy s
          else if jTruthy (jGet metadata "model") && jTruthy (jGet metadata "prompt") then
            .record metadata
          else .notFound
        | none => .legacy s
    | _ => .notFound

/-- A source image fed to embedMetadataInImage: either the browser decodes
it (onload fires) or it does not (onerror fires). -/
inductive SourceImage : Type where
  | undecodable
  | decodable
deriving DecidableEq, Repr

/-- Environment of one embedding call: whether a canvas 2d context is
available, and whether piexif.dump/piexif.insert throw on this call. -/
structure EmbedEnv : Type where
  ctxOk : Bool
  insertThrows : Bool
deriving DecidableEq, Repr

/-- The JPEG data URL produced by embedMetadataInImage: a canvas
re-encoding carrying an image-description tag when insertion succeeded. -/
structure EmbeddedJpeg : Type where
  imageDescription : Option String
deriving DecidableEq, Repr

/-- src/App.tsx lines 25-54: reject when the image does not decode or no
canvas context exists; otherwise re-encode to JPEG, serialize the metadata
with JSON.stringify into the image-description tag of a fresh EXIF block
and insert it; if dump or insert throws, resolve with the plain re-encoded
JPEG instead. -/
def embedMetadataInImage (base64Image : SourceImage) (mimeType : String)
    (metadata : GenerationMetadata) (env : EmbedEnv) : Except String EmbeddedJpeg :=
  match base64Image with
  | .undecodable => .error "Failed to load image for metadata embedding."
  | .decodable =>
    if !env.ctxOk then .error "Could not get canvas context"
    else
      let jpegDataUrl : EmbeddedJpeg := { imageDescription := none }
      if env.insertThrows then .ok jpegDataUrl
      else .ok { imageDescription := some (printJ (metaToJson metadata)) }

/-- Re-uploading the JPEG produced by embedMetadataInImage: piexif.load
succeeds on piexif.insert output and reads back the tag it wrote. -/
def uploadOfEmbedded (jpeg : EmbeddedJpeg) : UploadedImage :=
  .loaded { zeroth := some { imageDescription := jpeg.imageDescription.map ExifVal.str } }

/-! ## Application state (src/state/AppContext.tsx) -/

/-- The HistoryItem interface. -/
structure HistoryItem : Type where
  id : String
  images : List EmbeddedJpeg
  timestamp : Nat
  metadata : GenerationMetadata
deriving DecidableEq, Repr

/-- The AppState interface, fields in source order. -/
structure AppState : Type where
  view : View
  mobileView : MobileView
  isLoading : Bool
  loadingMessage : Option String
  isNightMode : Bool
  isRefining : Bool
  isDescribing : Bool
  isFetchingExamples : Bool
  error : Option String
  prompt : String
  model : ImageModel
  promptMode : PromptMode
  aspectRatio : AspectRatio
  numberOfImages : Nat
  referenceImages : List String
  useWebSearch : Bool
  examplePrompts : List String
  generatedImages : Option (List EmbeddedJpeg)
  generatedVideoUrl : Option String
  selectedImageIndex : Nat
  refinementPrompt : String
  refinementCreativeStrength : CreativeStrength
  refinementStyle : String
  generationHistory : List HistoryItem
  activeHistoryId : Option String
  activeBatchHistoryIds : Option (List String)
  extractedMetadata : Option GenerationMetadata
  imagePreview : Option UploadedImage
  extractionMessage : Option String
  isPromptValid : Bool
  isEditingPrompt : Bool

/-- The initialState value of AppContext.tsx. -/
def initialState : AppState where
  view := .generate
  mobileView := .form
  isLoading := false
  loadingMessage := none
  isNightMode := true
  isRefining := false
  isDescribing := false
  isFetchingExamples := true
  error := none
  prompt := "A majestic bioluminescent jellyfish floating in a dark, deep ocean, surrounded by sparkling plankton."
  model := .flash
  promptMode := .text
  aspectRatio := .r1x1
  numberOfImages := 1
  referenceImages := []
  useWebSearch := false
  examplePrompts := []
  generatedImages := none
  generatedVideoUrl := none
  selectedImageIndex := 0
  refinementPrompt := ""
  refinementCreativeStrength := .medium
  refinementStyle := ""
  generationHistory := []
  activeHistoryId := none
  activeBatchHistoryIds := none
  extractedMetadata := none
  imagePreview := none
  extractionMessage := none
  isPromptValid := false
  isEditingPrompt := false

/-- The Action union of AppContext.tsx.  SET_FORM_FIELD, which assigns an
arbitrary state field by dynamic key, is outside the claims considered
here and is not modelled. -/
inductive Action : Type where
  | setView (payload : View)
  | setMobileView (payload : MobileView)
  | setLoading (payload : Bool)
  | setLoadingMessage (payload : Option String)
  | setRefining (payload : Bool)
  | setDescribing (payload : Bool)
  | setFetchingExamples (payload : Bool)
  | setError (payload : Option String)
  | startGeneration
  | generationSuccess (images : List EmbeddedJpeg) (historyItem : HistoryItem)
  | batchGenerationSuccess (images : List EmbeddedJpeg) (historyItems : List HistoryItem)
  | videoGenerationSuccess (payload : String)
  | refinementSuccess (newImage : EmbeddedJpeg) (newHistoryItem : HistoryItem)
  | setSelectedImageIndex (payload : Nat)
  | setHistoryItem (payload : HistoryItem)
  | startExtraction
  | extractionResult (dataUrl : UploadedImage) (metadata : Option GenerationMetadata)
      (message : String) (isValid : Bool)
  | descriptionSuccess (metadata : GenerationMetadata) (message : String)
  | setExtractedMetadata (payload : Option GenerationMetadata)
  | setIsEditingPrompt (payload : Bool)
  | validateEditedPrompt
  | toggleNightMode
  | clearHistory
  | setExamplePrompts (prompts : List String) (error : Option String)

/-- The appReducer of AppContext.tsx, case for case. -/
def appReducer (state : AppState) (action : Action) : AppState :=
  match action with
  | .setView payload =>
    { state with view := payload, mobileView := .form, error := none,
                 generatedImages := none, generatedVideoUrl := none }
  | .setMobileView payload => { state with mobileView := payload }
  | .toggleNightMode => { state with isNightMode := !state.isNightMode }
  | .setLoading payload => { state with isLoading := payload }
  | .setLoadingMessage payload => { state with loadingMessage := payload }
  | .setRefining payload => { state with isRefining := payload }
  | .setDescribing payload => { state with isDescribing := payload }
  | .setFetchingExamples payload => { state with isFetchingExamples := payload }
  | .setError payload => { state with error := payload }
  | .startGeneration =>
    { state with isLoading := true, error := none, generatedImages := none,
                 generatedVideoUrl := none, refinementPrompt := "",
                 activeBatchHistoryIds := none, loadingMessage := none }
  | .generationSuccess images historyItem =>
    { state with isLoading := false,
                 generatedImages := some images,
                 generationHistory := historyItem :: state.generationHistory,
                 activeHistoryId := some historyItem.id,
                 referenceImages := [],
                 useWebSearch := false,
                 selectedImageIndex := 0,
                 mobileView := .results }
  | .batchGenerationSuccess images historyItems =>
    { state with isLoading := false,
                 generatedImages := some images,
                 generationHistory := historyItems ++ state.generationHistory,
                 activeBatchHistoryIds := some (historyItems.map (·.id)),
                 activeHistoryId := none,
                 referenceImages := [],
                 useWebSearch := false,
                 selectedImageIndex := 0,
                 mobileView := .results }
  | .videoGenerationSuccess payload =>
    { state with isLoading := false, generatedVideoUrl := some payload,
                 loadingMessage := none, mobileView := .results }
  | .refinementSuccess newImage newHistoryItem =>
    let historyIdToUpdate : Option String :=
      match state.activeBatchHistoryIds with
      | some ids => ids.get? state.selectedImageIndex
      | none => state.activeHistoryId
    { state with
        isRefining := false,
        generatedImages :=
          match state.generatedImages with
          | some imgs =>
            some (imgs.mapIdx fun index img =>
              if index = state.selectedImageIndex then newImage else img)
          | none => some [newImage],
        generationHistory := state.generationHistory.map fun item =>
          if some item.id = historyIdToUpdate then
            { newHistoryItem with id := item.id }
          else item,
        refinementPrompt := "",
        refinementStyle := "",
        refinementCreativeStrength := .medium }
  | .setSelectedImageIndex payload => { state with selectedImageIndex := payload }
  | .setHistoryItem payload =>
    { state with
        view := .generate,
        model := payload.metadata.model,
        aspectRatio := payload.metadata.aspectRatio.getD .r1x1,
        prompt := payload.metadata.prompt,
        promptMode := payload.metadata.promptMode.getD .text,
        generatedImages := some payload.images,
        generatedVideoUrl := none,
        activeHistoryId := some payload.id,
        activeBatchHistoryIds := none,
        numberOfImages := payload.images.length,
        referenceImages := [],
        error := none,
        refinementPrompt := "",
        mobileView := .results }
  | .startExtraction =>
    { state with imagePreview := none, extractedMetadata := none,
                 isPromptValid := false, isEditingPrompt := false,
                 extractionMessage := some "Processing image..." }
  | .extractionResult dataUrl metadata message isValid =>
    { state with imagePreview := some dataUrl, extractedMetadata := metadata,
                 extractionMessage := some message, isPromptValid := isValid }
  | .descriptionSuccess metadata message =>
    { state with extractedMetadata := some metadata, isPromptValid := true,
                 extractionMessage := some message, isEditingPrompt := false }
  | .setExtractedMetadata payload => { state with extractedMetadata := payload }
  | .setIsEditingPrompt payload => { state with isEditingPrompt := payload }
  | .clearHistory =>
    { state with generationHistory := [], generatedImages := none,
                 activeHistoryId := none, activeBatchHistoryIds := none,
                 selectedImageIndex := 0 }
  | .validateEditedPrompt =>
    match state.extractedMetadata with
    | none => state
    | some m =>
      if m.model = .flash ∧ m.promptMode = some .json then
        match parseJson m.prompt with
        | some _ =>
          { state with isPromptValid := true,
                       extractionMessage := some "The edited JSON prompt is valid." }
        | none =>
          { state with isPromptValid := false,
                       extractionMessage := some "The edited prompt is not valid JSON." }
      else
        let isValid := decide (0 < (jsTrim m.prompt).length)
        { state with isPromptValid := isValid,
                     extractionMessage :=
                       some (if isValid then "The edited prompt is valid."
                             else "Prompt cannot be empty.") }
  | .setExamplePrompts prompts error =>
    { state with
        examplePrompts := prompts,
        isFetchingExamples := false,
        error :=
          match error with
          | some e =>
            match state.error with
            | some old => some (old ++ "\n" ++ e)
            | none => some e
          | none => state.error }

/-! ## handleFileSelect classification (src/App.tsx lines 278-310)

After extractMetadataFromImage runs, handleFileSelect classifies its
result: a record object is taken as is with valid = true; a legacy string
is re-parsed as JSON to decide valid, the metadata being a fresh object
assuming the Nano Banana model either way; null leaves the defaults.  The
metadata payload is kept at the JavaScript value level, as in the source,
where the parsed record object is used directly. -/

/-- The metadata object handleFileSelect builds for a legacy string. -/
def legacyMetaObj (s : String) : JVal :=
  .obj [("model", JVal.str "gemini-2.5-flash-image"), ("prompt", JVal.str s)]

/-- The triple of local variables metadata, message and isValid that
handleFileSelect dispatches in its EXTRACTION_RESULT action. -/
structure FileSelectOutcome : Type where
  metadata : Option JVal
  message : String
  isValid : Bool

/-- The classification block of handleFileSelect. -/
def classifyExtraction (foundMetadata : ExtractResult) : FileSelectOutcome :=
  match foundMetadata with
  | .record metadata =>
    { metadata := some metadata,
      message := "Successfully extracted generation metadata.",
      isValid := true }
  | .legacy s =>
    match parseJson s with
    | some _ =>
      { metadata := some (legacyMetaObj s),
        message := "Found a legacy prompt and assumed it's for the Nano Banana model.",
        isValid := true }
    | none =>
      { metadata := some (legacyMetaObj s),
        message := "An embedded prompt was found, but it is not valid JSON.",
        isValid := false }
  | .notFound =>
    { metadata := none,
      message := "Could not find embedded metadata in this image's EXIF data.",
      isValid := false }

/-! ## Batch generation (src/App.tsx lines 169-214)

handleGenerateAllSuggestions fans out one generateImagesFromPrompt call
per suggestion and joins them with Promise.all.  The external call either
resolves with a list of base64 images (each of which the browser may or
may not decode) or rejects with an error message; its outcome is a
parameter.  Promise.all rejects as soon as any input rejects; the model
takes the first rejection in list order.  Ids and the timestamp produced
by Date.now and Math.random are parameters. -/

/-- Promise.all over settled outcomes: the list of values if every call
resolved, otherwise the first rejection. -/
def promiseAll {ε α : Type} : List (Except ε α) → Except ε (List α)
  | [] => .ok []
  | .error e :: _ => .error e
  | .ok a :: rest => (promiseAll rest).map (a :: ·)

/-- The async closure mapped over the suggestions (src/App.tsx lines
174-198): build the metadata, await the generation call, return null on an
empty result, otherwise embed the metadata into the first image and return
the new history item. -/
def suggestionTask (model : ImageModel) (stateAspectRatio : AspectRatio)
    (suggestionPrompt : String) (genResult : Except String (List SourceImage))
    (env : EmbedEnv) (id : String) (timestamp : Nat) :
    Except String (Option HistoryItem) :=
  let isImagen := model = .imagen
  let metadataToEmbed : GenerationMetadata :=
    { model := model,
      prompt := suggestionPrompt,
      aspectRatio := if isImagen then some stateAspectRatio else none,
      promptMode := some .text }
  match genResult with
  | .error e => .error e
  | .ok base64Images =>
    match base64Images with
    | [] => .ok none
    | img :: _ =>
      match embedMetadataInImage img "image/png" metadataToEmbed env with
      | .error e => .error e
      | .ok imageWithMetadata =>
        .ok (some { id := id, images := [imageWithMetadata],
                    timestamp := timestamp, metadata := metadataToEmbed })

/-- src/App.tsx lines 169-214: dispatch START_GENERATION, join the
per-suggestion tasks with Promise.all, and either dispatch
BATCH_GENERATION_SUCCESS with the non-null results, or reach the catch
block (from a rejected task, or from the aggregate error thrown when every
result was null) which dispatches SET_ERROR and SET_LOADING false. -/
def handleGenerateAllSuggestions (suggestions : List String)
    (genResults : List (Except String (List SourceImage))) (env : EmbedEnv)
    (ids : List String) (timestamp : Nat) (state : AppState) : AppState :=
  if suggestions.isEmpty then state
  else
    let state₁ := appReducer state .startGeneration
    let generationPromises :=
      (suggestions.zip (genResults.zip ids)).map fun p =>
        suggestionTask state.model state.aspectRatio p.1 p.2.1 env p.2.2 timestamp
    match promiseAll generationPromises with
    | .error e =>
      appReducer (appReducer state₁ (.setError (some e))) (.setLoading false)
    | .ok results =>
      let newHistoryItems := results.filterMap (fun item => item)
      if newHistoryItems.isEmpty then
        appReducer
          (appReducer state₁
            (.setError (some "All image generations in the batch failed.")))
          (.setLoading false)
      else
        let allGeneratedImages := newHistoryItems.flatMap (·.images)
        appReducer state₁ (.batchGenerationSuccess allGeneratedImages newHistoryItems)

/-! ## Refinement metadata (src/App.tsx lines 216-250 and
src/unnamed/part_010 lines 1257-1296)

Two revisions of handleRefine coexist in the repository.  The one in
src/App.tsx carries the originating record forward, appending only the
refinement note to the prompt.  The one in src/unnamed/part_010 chooses
the note label by whether the source record came from Imagen, refreshes
the filename slug (from an external call whose result is a parameter
here), and sets the model field to gemini-2.5-flash-image, the backend
that actually produced the refined image. -/

/-- The newMetadata computed by handleRefine in src/App.tsx. -/
def refineMetadataApp (metadata : GenerationMetadata) (refinementPrompt : String) :
    GenerationMetadata :=
  { metadata with
      prompt := metadata.prompt ++ "\n\n---\n\nRefinement: " ++ refinementPrompt }

/-- The newMetadata computed by handleRefine in src/unnamed/part_010. -/
def refineMetadataPart10 (metadata : GenerationMetadata) (refinementPrompt : String)
    (filenameSlug : String) : GenerationMetadata :=
  let isFromImagen := metadata.model = .imagen
  let refinementNote :=
    if isFromImagen then
      "\n\n---\n\nRefined (from Imagen) with Nano Banana: " ++ refinementPrompt
    else
      "\n\n---\n\nRefinement: " ++ refinementPrompt
  { metadata with
      prompt := metadata.prompt ++ refinementNote,
      filenameSlug := some filenameSlug,
      model := .flash }

/-! ## Structured-prompt display (src/components/MetadataViewer.tsx lines
6-19 and 66-73; the same functions appear in
src/components/ImageGeneratorForm.tsx lines 57-77) -/

/-- formatJsonDisplay: parse the stored prompt, pretty-print it with a
two-space gap, and if the trimmed result is bracket-delimited, show only
the trimmed inner text; a prompt that does not parse is shown verbatim. -/
def formatJsonDisplay (jsonString : String) : String :=
  if jsonString == "" then ""
  else
    match parseJson jsonString with
    | none => jsonString
    | some parsed =>
      let pretty := prettyJ parsed 0
      let trimmed := jsTrim pretty
      if trimmed.data.head? = some '[' ∧ trimmed.data.getLast? = some ']' then
        jsTrim ⟨trimmed.data.tail.dropLast⟩
      else pretty

/-- handlePromptTextAreaChange: the prompt stored after the text area
changes to newValue.  In structured mode for the fast-edit model the text
is re-wrapped in square brackets; otherwise it is stored as typed. -/
def promptAfterTextAreaChange (model : ImageModel) (promptMode : Option PromptMode)
    (newValue : String) : String :=
  let isJsonMode := model = .flash ∧ promptMode = some .json
  if isJsonMode then "[" ++ newValue ++ "]" else newValue

/-! ## The generation workflow's reachable states

The action sequences of the generation workflow: a START_GENERATION
(optionally) followed at once by its GENERATION_SUCCESS or
BATCH_GENERATION_SUCCESS, selecting a history item, clearing the
history. -/

inductive ReachableGen : AppState → Prop where
  | init : ReachableGen initialState
  | start (s : AppState) : ReachableGen s →
      ReachableGen (appReducer s .startGeneration)
  | singleSuccess (s : AppState) (images : List EmbeddedJpeg) (item : HistoryItem) :
      ReachableGen s →
      ReachableGen (appReducer (appReducer s .startGeneration)
        (.generationSuccess images item))
  | batchSuccess (s : AppState) (images : List EmbeddedJpeg) (items : List HistoryItem) :
      ReachableGen s →
      ReachableGen (appReducer (appReducer s .startGeneration)
        (.batchGenerationSuccess images items))
  | select (s : AppState) (item : HistoryItem) : ReachableGen s →
      ReachableGen (appReducer s (.setHistoryItem item))
  | clear (s : AppState) : ReachableGen s →
      ReachableGen (appReducer s .clearHistory)

/-! ## The JSON text grammar

A relation between a JSON value and the texts denoting it, whitespace
placed wherever RFC 8259 allows it.  String and number tokens are fixed to
the spelling the printers use (the parser accepts more spellings; only
these are needed).  The completeness theorem below shows the parser reads
any such text back as the value; the compact and indented printers, and
the bracket-stripping display transformation, all emit texts of this
grammar. -/

inductive Renders : JVal → List Char → Prop where
  | nullR : Renders .null ['n', 'u', 'l', 'l']
  | trueR : Renders (.bool true) ['t', 'r', 'u', 'e']
  | falseR : Renders (.bool false) ['f', 'a', 'l', 's', 'e']
  | strR (s : String) : Renders (.str s) ('"' :: escList s.data ++ ['"'])
  | numR (lit : String) : isValidNumLit lit.data = true → Renders (.num lit) lit.data
  | arrNil (w : List Char) : IsWsL w → Renders (.arr []) ('[' :: w ++ [']'])
  | arrOne (e : JVal) (s w₁ w₂ : List Char) : Renders e s → IsWsL w₁ → IsWsL w₂ →
      Renders (.arr [e]) ('[' :: w₁ ++ s ++ w₂ ++ [']'])
  | arrCons (e : JVal) (s w₁ w₂ : List Char) (es : List JVal) (t : List Char) :
      Renders e s → IsWsL w₁ → IsWsL w₂ → es ≠ [] → Renders (.arr es) ('[' :: t) →
      Renders (.arr (e :: es)) ('[' :: w₁ ++ s ++ w₂ ++ ',' :: t)
  | objNil (w : List Char) : IsWsL w → Renders (.obj []) ('\x7b' :: w ++ ['\x7d'])
  | objOne (k : String) (v : JVal) (s w₁ w₂ w₃ w₄ : List Char) : Renders v s →
      IsWsL w₁ → IsWsL w₂ → IsWsL w₃ → IsWsL w₄ →
      Renders (.obj [(k, v)])
        ('\x7b' :: w₁ ++ '"' :: escList k.data ++ '"' :: w₂ ++ ':' :: w₃ ++ s
          ++ w₄ ++ ['\x7d'])
  | objCons (k : String) (v : JVal) (s w₁ w₂ w₃ w₄ : List Char)
      (fs : List (String × JVal)) (t : List Char) : Renders v s →
      IsWsL w₁ → IsWsL w₂ → IsWsL w₃ → IsWsL w₄ → fs ≠ [] →
      Renders (.obj fs) ('\x7b' :: t) →
      Renders (.obj ((k, v) :: fs))
        ('\x7b' :: w₁ ++ '"' :: escList k.data ++ '"' :: w₂ ++ ':' :: w₃ ++ s
          ++ w₄ ++ ',' :: t)

/-- The following text must not begin with a character that could extend a
preceding number literal. -/
def numSafe (rest : List Char) : Bool :=
  match rest with
  | [] => true
  | c :: _ => !isNumChar c

mutual

/-- Every number literal inside the value satisfies the number grammar, so
the printers emit tokens the grammar derives.  JSON.parse only ever builds
such values. -/
def litsOk : JVal → Bool
  | .null => true
  | .bool _ => true
  | .num lit => isValidNumLit lit.data
  | .str _ => true
  | .arr es => litsOkL es
  | .obj fs => litsOkF fs

/-- litsOk over array elements. -/
def litsOkL : List JVal → Bool
  | [] => true
  | e :: es => litsOk e && litsOkL es

/-- litsOk over object members. -/
def litsOkF : List (String × JVal) → Bool
  | [] => true
  | (_, v) :: fs => litsOk v && litsOkF fs

end

mutual

/-- Node-count measure used to discharge the parser's fuel. -/
def nodesJ : JVal → Nat
  | .null => 1
  | .bool _ => 1
  | .num _ => 1
  | .str _ => 1
  | .arr es => 1 + nodesL es
  | .obj fs => 1 + nodesF fs

/-- Node count of array elements. -/
def nodesL : List JVal → Nat
  | [] => 0
  | e :: es => 1 + nodesJ e + nodesL es

/-- Node count of object members. -/
def nodesF : List (String × JVal) → Nat
  | [] => 0
  | (_, v) :: fs => 1 + nodesJ v + nodesF fs

end

end GeminiExif

namespace GeminiExif

/-! ### Whitespace lemmas -/

theorem IsWsL.nil : IsWsL [] := by intro c hc; cases hc

theorem IsWsL.cons {c : Char} {w : List Char} (hc : isWsChar c = true) (hw : IsWsL w) :
    IsWsL (c :: w) := by
  intro d hd
  rcases List.mem_cons.mp hd with rfl | hd
  · exact hc
  · exact hw _ hd

theorem IsWsL.append {w₁ w₂ : List Char} (h₁ : IsWsL w₁) (h₂ : IsWsL w₂) :
    IsWsL (w₁ ++ w₂) := by
  intro c hc
  rcases List.mem_append.mp hc with h | h
  · exact h₁ _ h
  · exact h₂ _ h

theorem skipWs_append_ws {w : List Char} (hw : IsWsL w) (l : List Char) :
    skipWs (w ++ l) = skipWs l := by
  induction w with
  | nil => rfl
  | cons c cs ih =>
    have hc := hw c (by simp)
    simp only [List.cons_append, skipWs, hc, if_true]
    exact ih (fun d hd => hw d (by simp [hd]))

theorem skipWs_cons_not_ws {c : Char} (hc : isWsChar c = false) (l : List Char) :
    skipWs (c :: l) = c :: l := by
  simp [skipWs, hc]

theorem skipWs_idem (l : List Char) : skipWs (skipWs l) = skipWs l := by
  induction l with
  | nil => rfl
  | cons c cs ih =>
    by_cases hc : isWsChar c = true
    · simp [skipWs, hc, ih]
    · simp only [Bool.not_eq_true] at hc
      simp [skipWs, hc]

theorem pVal_skipWs (fuel : Nat) (l : List Char) :
    pVal fuel (skipWs l) = pVal fuel l := by
  cases fuel with
  | zero => rfl
  | succ f => simp only [pVal, skipWs_idem]

theorem pElems_skipWs (fuel : Nat) (l : List Char) :
    pElems fuel (skipWs l) = pElems fuel l := by
  cases fuel with
  | zero => rfl
  | succ f => simp only [pElems, pVal_skipWs]

theorem pFields_skipWs (fuel : Nat) (l : List Char) :
    pFields fuel (skipWs l) = pFields fuel l := by
  cases fuel with
  | zero => rfl
  | succ f => simp only [pFields, skipWs_idem]

/-! ### Number-token lemmas -/

theorem validNumLit_all {l : List Char} (h : isValidNumLit l = true) :
    l.all isNumChar = true :=
  (Bool.and_eq_true_iff.mp h).2

theorem validNumLit_head {c : Char} {t : List Char}
    (h : isValidNumLit (c :: t) = true) : c.isDigit = true ∨ c = '-' := by
  by_cases hm : c = '-'
  · exact Or.inr hm
  · left
    have h₁ := (Bool.and_eq_true_iff.mp h).1
    have hsign : numAfterSign (c :: t) = c :: t := by
      unfold numAfterSign
      split
      · rename_i t' heq
        injection heq with h1 h2
        exact absurd h1 hm
      · rfl
    rw [hsign] at h₁
    by_cases h0 : c = '0'
    · subst h0; rfl
    · simp only [numAfterInt, h0, if_false] at h₁
      by_cases hd : c.isDigit = true
      · exact hd
      · simp [hd] at h₁

theorem takeWhile_append_all {p : Char → Bool} {l : List Char}
    (h : ∀ c ∈ l, p c = true) (r : List Char) :
    (l ++ r).takeWhile p = l ++ r.takeWhile p := by
  induction l with
  | nil => rfl
  | cons c cs ih =>
    have hc := h c (by simp)
    simp only [List.cons_append, List.takeWhile_cons, hc, if_true]
    rw [ih (fun d hd => h d (by simp [hd]))]

theorem dropWhile_append_all {p : Char → Bool} {l : List Char}
    (h : ∀ c ∈ l, p c = true) (r : List Char) :
    (l ++ r).dropWhile p = r.dropWhile p := by
  induction l with
  | nil => rfl
  | cons c cs ih =>
    have hc := h c (by simp)
    simp only [List.cons_append, List.dropWhile_cons, hc, if_true]
    exact ih (fun d hd => h d (by simp [hd]))

theorem pNum_complete {l : List Char} (h : isValidNumLit l = true)
    {rest : List Char} (hr : numSafe rest = true) :
    pNum (l ++ rest) = some (⟨l⟩, rest) := by
  have hall : ∀ c ∈ l, isNumChar c = true := by
    have := validNumLit_all h
    intro c hc
    exact List.all_eq_true.mp this c hc
  have htake : rest.takeWhile isNumChar = [] := by
    cases rest with
    | nil => rfl
    | cons c cs =>
      simp only [numSafe, Bool.not_eq_true'] at hr
      simp [List.takeWhile_cons, hr]
  have hdrop : rest.dropWhile isNumChar = rest := by
    cases rest with
    | nil => rfl
    | cons c cs =>
      simp only [numSafe, Bool.not_eq_true'] at hr
      simp [List.dropWhile_cons, hr]
  simp only [pNum, takeWhile_append_all hall, htake, List.append_nil,
    dropWhile_append_all hall, hdrop, h, if_true]

/-! ### String-token lemmas -/

theorem hexVal?_hexDigitChar : ∀ n : Nat, n < 16 → hexVal? (hexDigitChar n) = some n := by
  decide

theorem escList_length (l : List Char) : l.length ≤ (escList l).length := by
  induction l with
  | nil => simp [escList]
  | cons c cs ih =>
    have : 1 ≤ (escChar c).length := by
      unfold escChar
      repeat' split
      all_goals simp
    simp only [escList, List.length_cons, List.length_append]
    omega

/-- One printed character steps back to itself: the escape sequence the
printer emits for c is read back as c. -/
theorem strStep_escChar (c : Char) (X : List Char) :
    ∃ c₀ t, escChar c ++ X = c₀ :: t ∧ c₀ ≠ '"' ∧ strStep c₀ t = some (c, X) := by
  by_cases h1 : c = '"'
  · subst h1
    exact ⟨'\\', '"' :: X, rfl, by decide, rfl⟩
  · by_cases h2 : c = '\\'
    · subst h2
      exact ⟨'\\', '\\' :: X, rfl, by decide, rfl⟩
    · by_cases h3 : c = '\x08'
      · subst h3
        exact ⟨'\\', 'b' :: X, rfl, by decide, rfl⟩
      · by_cases h4 : c = '\x0c'
        · subst h4
          exact ⟨'\\', 'f' :: X, rfl, by decide, rfl⟩
        · by_cases h5 : c = '\n'
          · subst h5
            exact ⟨'\\', 'n' :: X, rfl, by decide, rfl⟩
          · by_cases h6 : c = '\r'
            · subst h6
              exact ⟨'\\', 'r' :: X, rfl, by decide, rfl⟩
            · by_cases h7 : c = '\t'
              · subst h7
                exact ⟨'\\', 't' :: X, rfl, by decide, rfl⟩
              · by_cases h8 : c.toNat < 0x20
                · refine ⟨'\\', 'u' :: '0' :: '0' :: hexDigitChar (c.toNat / 16)
                    :: hexDigitChar (c.toNat % 16) :: X, ?_, by decide, ?_⟩
                  · rw [show escChar c
                        = ['\\', 'u', '0', '0', hexDigitChar (c.toNat / 16),
                           hexDigitChar (c.toNat % 16)] from by
                      rw [escChar, if_neg h1, if_neg h2, if_neg h3, if_neg h4, if_neg h5,
                        if_neg h6, if_neg h7, if_pos h8]]
                    rfl
                  · show strStep '\\' _ = _
                    rw [strStep]
                    simp only [reduceIte]
                    rw [hexVal?_hexDigitChar _ (by omega), hexVal?_hexDigitChar _ (by omega)]
                    simp only [show hexVal? '0' = some 0 from rfl]
                    rw [if_pos (by omega : ((0 * 16 + 0) * 16 + c.toNat / 16) * 16
                        + c.toNat % 16 < 0xd800 ∨ 0xe000 ≤ ((0 * 16 + 0) * 16
                        + c.toNat / 16) * 16 + c.toNat % 16)]
                    have hn : ((0 * 16 + 0) * 16 + c.toNat / 16) * 16 + c.toNat % 16
                        = c.toNat := by omega
                    rw [hn, Char.ofNat_toNat]
                    simp
                · refine ⟨c, X, ?_, h1, ?_⟩
                  · rw [show escChar c = [c] from by
                      rw [escChar, if_neg h1, if_neg h2, if_neg h3, if_neg h4, if_neg h5,
                        if_neg h6, if_neg h7, if_neg h8]]
                    rfl
                  · unfold strStep
                    rw [if_neg h2, if_neg h8]

theorem pStrBody_complete :
    ∀ (l rest : List Char) (fuel : Nat), l.length < fuel →
      pStrBody fuel (escList l ++ '"' :: rest) = some (l, rest) := by
  intro l
  induction l with
  | nil =>
    intro rest fuel hf
    cases fuel with
    | zero => omega
    | succ f => rfl
  | cons c cs ih =>
    intro rest fuel hf
    cases fuel with
    | zero => omega
    | succ f =>
      have hf' : cs.length < f := by simpa using hf
      obtain ⟨c₀, t, heq, hne, hstep⟩ := strStep_escChar c (escList cs ++ '"' :: rest)
      rw [show escList (c :: cs) ++ '"' :: rest
          = escChar c ++ (escList cs ++ '"' :: rest) from by
        simp [escList]]
      rw [heq]
      simp only [pStrBody, if_neg hne, hstep]
      rw [ih rest f hf']
      rfl

/-! ### Shape facts about rendered texts -/

theorem digit_toNat {c : Char} (h : c.isDigit = true) : 48 ≤ c.toNat ∧ c.toNat ≤ 57 := by
  simp [Char.isDigit] at h
  exact h

theorem char_beq_false_of_lt {c x : Char} (h48 : 48 ≤ c.toNat) (hx : x.toNat < 48) :
    (c == x) = false := by
  refine beq_eq_false_iff_ne.mpr ?_
  rintro rfl
  omega

theorem digit_not_ws {c : Char} (h : c.isDigit = true) : isWsChar c = false := by
  have hb := digit_toNat h
  simp only [isWsChar, Bool.or_eq_false_iff]
  exact ⟨⟨⟨char_beq_false_of_lt hb.1 (by decide), char_beq_false_of_lt hb.1 (by decide)⟩,
    char_beq_false_of_lt hb.1 (by decide)⟩, char_beq_false_of_lt hb.1 (by decide)⟩

theorem renders_shape {v : JVal} {s : List Char} (h : Renders v s) :
    ∃ c t, s = c :: t ∧ isWsChar c = false ∧ c ≠ ']' ∧ c ≠ '\x7d' := by
  cases h with
  | nullR => exact ⟨'n', _, rfl, by decide, by decide, by decide⟩
  | trueR => exact ⟨'t', _, rfl, by decide, by decide, by decide⟩
  | falseR => exact ⟨'f', _, rfl, by decide, by decide, by decide⟩
  | strR s => exact ⟨'"', _, rfl, by decide, by decide, by decide⟩
  | numR lit hv =>
    cases hl : lit.data with
    | nil => rw [hl] at hv; exact absurd hv (by decide)
    | cons c t =>
      rw [hl] at hv
      rcases validNumLit_head hv with hd | hm
      · have hb := digit_toNat hd
        refine ⟨c, t, hl ▸ rfl, ?_, ?_, ?_⟩
        · exact digit_not_ws hd
        · intro he; subst he; simp at hb
        · intro he; subst he; simp at hb
      · subst hm
        exact ⟨'-', t, hl ▸ rfl, by decide, by decide, by decide⟩
  | arrNil w hw => exact ⟨'[', _, rfl, by decide, by decide, by decide⟩
  | arrOne e s w₁ w₂ he h₁ h₂ => exact ⟨'[', _, rfl, by decide, by decide, by decide⟩
  | arrCons e s w₁ w₂ es t he h₁ h₂ hne ht =>
    exact ⟨'[', _, rfl, by decide, by decide, by decide⟩
  | objNil w hw => exact ⟨'\x7b', _, rfl, by decide, by decide, by decide⟩
  | objOne k vv s w₁ w₂ w₃ w₄ hv h₁ h₂ h₃ h₄ =>
    exact ⟨'\x7b', _, rfl, by decide, by decide, by decide⟩
  | objCons k vv s w₁ w₂ w₃ w₄ fs t hv h₁ h₂ h₃ h₄ hne ht =>
    exact ⟨'\x7b', _, rfl, by decide, by decide, by decide⟩

theorem ws_not_num {c : Char} (h : isWsChar c = true) : isNumChar c = false := by
  simp only [isWsChar, Bool.or_eq_true, beq_iff_eq] at h
  rcases h with ((rfl | rfl) | rfl) | rfl <;> decide

theorem numSafe_cons {c : Char} (hc : isNumChar c = false) (x : List Char) :
    numSafe (c :: x) = true := by
  simp [numSafe, hc]

theorem numSafe_append_ws {w : List Char} (hw : IsWsL w) {c : Char}
    (hc : isNumChar c = false) (x : List Char) : numSafe (w ++ c :: x) = true := by
  cases w with
  | nil => exact numSafe_cons hc x
  | cons d ds =>
    have hd := hw d (by simp)
    simp [numSafe, ws_not_num hd]

theorem nodesJ_pos (v : JVal) : 1 ≤ nodesJ v := by
  cases v <;> simp [nodesJ]

theorem validNumLit_nil : isValidNumLit [] = false := by decide

end GeminiExif

namespace GeminiExif

theorem pVal_ws {w : List Char} (hw : IsWsL w) (fuel : Nat) (l : List Char) :
    pVal fuel (w ++ l) = pVal fuel l := by
  cases fuel with
  | zero => rfl
  | succ f => simp only [pVal, skipWs_append_ws hw]

theorem pElems_ws {w : List Char} (hw : IsWsL w) (fuel : Nat) (l : List Char) :
    pElems fuel (w ++ l) = pElems fuel l := by
  cases fuel with
  | zero => rfl
  | succ f => simp only [pElems, pVal_ws hw]

theorem pFields_ws {w : List Char} (hw : IsWsL w) (fuel : Nat) (l : List Char) :
    pFields fuel (w ++ l) = pFields fuel l := by
  cases fuel with
  | zero => rfl
  | succ f => simp only [pFields, skipWs_append_ws hw]

end GeminiExif

namespace GeminiExif

/-- Parser completeness over the text grammar: a text the grammar derives
from v is read back as v, with any leading whitespace, any following text
that cannot extend a trailing number token, and any fuel above the node
count of v.  The second and third components drive the element and member
loops of the parser through the induction. -/
theorem renders_complete {v : JVal} {s : List Char} (h : Renders v s) :
    (∀ (w rest : List Char) (fuel : Nat), IsWsL w → nodesJ v < fuel →
      numSafe rest = true → pVal fuel (w ++ s ++ rest) = some (v, rest))
    ∧ (∀ (es : List JVal) (t : List Char), v = .arr es → s = '[' :: t → es ≠ [] →
      ∀ (rest : List Char) (fuel : Nat), nodesL es < fuel →
        pElems fuel (t ++ rest) = some (es, rest))
    ∧ (∀ (fs : List (String × JVal)) (t : List Char), v = .obj fs → s = '\x7b' :: t →
      fs ≠ [] → ∀ (rest : List Char) (fuel : Nat), nodesF fs < fuel →
        pFields fuel (t ++ rest) = some (fs, rest)) := by
  induction h with
  | nullR =>
    refine ⟨?_, ?_, ?_⟩
    · intro w rest fuel hw hf hns
      cases fuel with
      | zero => exact absurd hf (Nat.not_lt_zero _)
      | succ f =>
        simp only [List.append_assoc, List.cons_append, List.nil_append]
        simp only [pVal, skipWs_append_ws hw,
          skipWs_cons_not_ws (show isWsChar 'n' = false by decide)]
        rfl
    · intro es t hv; cases hv
    · intro fs t hv; cases hv
  | trueR =>
    refine ⟨?_, ?_, ?_⟩
    · intro w rest fuel hw hf hns
      cases fuel with
      | zero => exact absurd hf (Nat.not_lt_zero _)
      | succ f =>
        simp only [List.append_assoc, List.cons_append, List.nil_append]
        simp only [pVal, skipWs_append_ws hw,
          skipWs_cons_not_ws (show isWsChar 't' = false by decide)]
        rfl
    · intro es t hv; cases hv
    · intro fs t hv; cases hv
  | falseR =>
    refine ⟨?_, ?_, ?_⟩
    · intro w rest fuel hw hf hns
      cases fuel with
      | zero => exact absurd hf (Nat.not_lt_zero _)
      | succ f =>
        simp only [List.append_assoc, List.cons_append, List.nil_append]
        simp only [pVal, skipWs_append_ws hw,
          skipWs_cons_not_ws (show isWsChar 'f' = false by decide)]
        rfl
    · intro es t hv; cases hv
    · intro fs t hv; cases hv
  | strR str =>
    refine ⟨?_, ?_, ?_⟩
    · intro w rest fuel hw hf hns
      cases fuel with
      | zero => exact absurd hf (Nat.not_lt_zero _)
      | succ f =>
        simp only [List.append_assoc, List.cons_append, List.singleton_append,
          List.nil_append]
        simp only [pVal, skipWs_append_ws hw,
          skipWs_cons_not_ws (show isWsChar '"' = false by decide)]
        have hlen : str.data.length < (escList str.data ++ '"' :: rest).length + 1 := by
          have := escList_length str.data
          simp only [List.length_append, List.length_cons]
          omega
        simp only [pStrBody_complete str.data rest _ hlen, reduceIte, Option.map_some']
        rfl
    · intro es t hv; cases hv
    · intro fs t hv; cases hv
  | numR lit hv =>
    refine ⟨?_, ?_, ?_⟩
    · intro w rest fuel hw hf hns
      cases fuel with
      | zero => exact absurd hf (Nat.not_lt_zero _)
      | succ f =>
        cases hl : lit.data with
        | nil => rw [hl] at hv; exact absurd hv (by decide)
        | cons c₀ t₀ =>
          have hhead : c₀.isDigit = true ∨ c₀ = '-' := validNumLit_head (hl ▸ hv)
          have hnotws : isWsChar c₀ = false := by
            rcases hhead with hd | rfl
            · exact digit_not_ws hd
            · decide
          have hb : 48 ≤ c₀.toNat ∧ c₀.toNat ≤ 57 ∨ c₀ = '-' := by
            rcases hhead with hd | rfl
            · exact Or.inl (digit_toNat hd)
            · exact Or.inr rfl
          have hn : ¬c₀ = 'n' := by
            rcases hb with ⟨h1, h2⟩ | rfl
            · rintro rfl; simp at h1 h2
            · decide
          have ht' : ¬c₀ = 't' := by
            rcases hb with ⟨h1, h2⟩ | rfl
            · rintro rfl; simp at h1 h2
            · decide
          have hfc : ¬c₀ = 'f' := by
            rcases hb with ⟨h1, h2⟩ | rfl
            · rintro rfl; simp at h1 h2
            · decide
          have hq : ¬c₀ = '"' := by
            rcases hb with ⟨h1, h2⟩ | rfl
            · rintro rfl; simp at h1 h2
            · decide
          have hbr : ¬c₀ = '[' := by
            rcases hb with ⟨h1, h2⟩ | rfl
            · rintro rfl; simp at h1 h2
            · decide
          have hbc : ¬c₀ = '\x7b' := by
            rcases hb with ⟨h1, h2⟩ | rfl
            · rintro rfl; simp at h1 h2
            · decide
          simp only [List.append_assoc, List.cons_append, List.nil_append]
          simp only [pVal, skipWs_append_ws hw, skipWs_cons_not_ws hnotws]
          rw [if_neg hn, if_neg ht', if_neg hfc, if_neg hq, if_neg hbr, if_neg hbc,
            if_pos hhead]
          rw [show pNum (c₀ :: (t₀ ++ rest)) = some (⟨c₀ :: t₀⟩, rest) from
            pNum_complete (hl ▸ hv) hns]
          rw [show (⟨c₀ :: t₀⟩ : String) = lit from congrArg String.mk hl.symm]
          rfl
    · intro es t hv; cases hv
    · intro fs t hv; cases hv
  | arrNil w' hw' =>
    refine ⟨?_, ?_, ?_⟩
    · intro w rest fuel hw hf hns
      cases fuel with
      | zero => exact absurd hf (Nat.not_lt_zero _)
      | succ f =>
        simp only [List.append_assoc, List.cons_append, List.singleton_append,
          List.nil_append]
        simp only [pVal, skipWs_append_ws hw,
          skipWs_cons_not_ws (show isWsChar '[' = false by decide)]
        simp only [reduceIte]
        rw [skipWs_append_ws hw', skipWs_cons_not_ws (by decide)]
        rfl
    · intro es t hv heq hne
      cases hv
      exact absurd rfl hne
    · intro fs t hv; cases hv
  | arrOne e s₀ w₁ w₂ he hw₁ hw₂ ihe =>
    obtain ⟨c₀, t₀, hs₀, hc₀ws, hc₀r, hc₀b⟩ := renders_shape he
    have hB : ∀ (rest : List Char) (fuel : Nat), nodesL [e] < fuel →
        pElems fuel (w₁ ++ (s₀ ++ (w₂ ++ ']' :: rest))) = some ([e], rest) := by
      intro rest fuel hfe
      cases fuel with
      | zero => exact absurd hfe (Nat.not_lt_zero _)
      | succ f =>
        have hje : nodesJ e < f := by
          simp only [nodesL] at hfe
          omega
        have hpv := ihe.1 w₁ (w₂ ++ ']' :: rest) f hw₁ hje
          (numSafe_append_ws hw₂ (by decide) rest)
        simp only [List.append_assoc] at hpv
        simp only [pElems, hpv]
        rw [skipWs_append_ws hw₂, skipWs_cons_not_ws (by decide)]
        simp only [List.head?_cons, List.tail_cons, Option.some.injEq, reduceIte]
        rfl
    refine ⟨?_, ?_, ?_⟩
    · intro w rest fuel hw hf hns
      cases fuel with
      | zero => exact absurd hf (Nat.not_lt_zero _)
      | succ f =>
        simp only [List.append_assoc, List.cons_append, List.singleton_append,
          List.nil_append]
        simp only [pVal, skipWs_append_ws hw,
          skipWs_cons_not_ws (show isWsChar '[' = false by decide)]
        simp only [reduceIte]
        rw [skipWs_append_ws hw₁, hs₀, List.cons_append, skipWs_cons_not_ws hc₀ws]
        simp only [List.head?_cons, Option.some.injEq]
        rw [if_neg hc₀r]
        rw [show (c₀ :: (t₀ ++ (w₂ ++ ']' :: rest)))
            = (c₀ :: t₀) ++ (w₂ ++ ']' :: rest) from rfl, ← hs₀]
        rw [← pElems_ws hw₁ f (s₀ ++ (w₂ ++ ']' :: rest))]
        rw [hB rest f (by
          simp only [nodesJ] at hf
          omega)]
        rfl
    · intro es t hv heq hne rest fuel hfe
      cases hv
      injection heq with hhead htail
      rw [← htail]
      have := hB rest fuel hfe
      simpa [List.append_assoc, List.append_eq, List.cons_append,
        List.singleton_append] using this
    · intro fs t hv; cases hv
  | arrCons e s₀ w₁ w₂ es t he hw₁ hw₂ hne ht ihe iht =>
    obtain ⟨c₀, t₀, hs₀, hc₀ws, hc₀r, hc₀b⟩ := renders_shape he
    have hB : ∀ (rest : List Char) (fuel : Nat), nodesL (e :: es) < fuel →
        pElems fuel (w₁ ++ (s₀ ++ (w₂ ++ ',' :: (t ++ rest)))) = some (e :: es, rest) := by
      intro rest fuel hfe
      cases fuel with
      | zero => exact absurd hfe (Nat.not_lt_zero _)
      | succ f =>
        have hje : nodesJ e < f := by
          simp only [nodesL] at hfe
          omega
        have hles : nodesL es < f := by
          simp only [nodesL] at hfe
          have := nodesJ_pos e
          omega
        have hpv := ihe.1 w₁ (w₂ ++ ',' :: (t ++ rest)) f hw₁ hje
          (numSafe_append_ws hw₂ (by decide) (t ++ rest))
        simp only [List.append_assoc] at hpv
        simp only [pElems, hpv]
        rw [skipWs_append_ws hw₂, skipWs_cons_not_ws (by decide)]
        simp only [List.head?_cons, List.tail_cons, Option.some.injEq, reduceIte]
        rw [iht.2.1 es t rfl rfl hne rest f hles]
        rfl
    refine ⟨?_, ?_, ?_⟩
    · intro w rest fuel hw hf hns
      cases fuel with
      | zero => exact absurd hf (Nat.not_lt_zero _)
      | succ f =>
        simp only [List.append_assoc, List.cons_append, List.singleton_append,
          List.nil_append]
        simp only [pVal, skipWs_append_ws hw,
          skipWs_cons_not_ws (show isWsChar '[' = false by decide)]
        simp only [reduceIte]
        rw [skipWs_append_ws hw₁, hs₀, List.cons_append, skipWs_cons_not_ws hc₀ws]
        simp only [List.head?_cons, Option.some.injEq]
        rw [if_neg hc₀r]
        rw [show (c₀ :: (t₀ ++ (w₂ ++ ',' :: (t ++ rest))))
            = (c₀ :: t₀) ++ (w₂ ++ ',' :: (t ++ rest)) from rfl, ← hs₀]
        rw [← pElems_ws hw₁ f (s₀ ++ (w₂ ++ ',' :: (t ++ rest)))]
        rw [hB rest f (by
          simp only [nodesJ] at hf
          omega)]
        rfl
    · intro es' t' hv heq hne' rest fuel hfe
      cases hv
      injection heq with hhead htail
      rw [← htail]
      have := hB rest fuel hfe
      simpa [List.append_assoc, List.append_eq, List.cons_append,
        List.singleton_append] using this
    · intro fs t' hv; cases hv
  | objNil w' hw' =>
    refine ⟨?_, ?_, ?_⟩
    · intro w rest fuel hw hf hns
      cases fuel with
      | zero => exact absurd hf (Nat.not_lt_zero _)
      | succ f =>
        simp only [List.append_assoc, List.cons_append, List.singleton_append,
          List.nil_append]
        simp only [pVal, skipWs_append_ws hw,
          skipWs_cons_not_ws (show isWsChar '\x7b' = false by decide)]
        simp only [reduceIte]
        rw [skipWs_append_ws hw', skipWs_cons_not_ws (by decide)]
        rfl
    · intro es t hv; cases hv
    · intro fs t hv heq hne
      cases hv
      exact absurd rfl hne
  | objOne k vv s₀ w₁ w₂ w₃ w₄ hv hw₁ hw₂ hw₃ hw₄ ihv =>
    have hB : ∀ (rest : List Char) (fuel : Nat), nodesF [(k, vv)] < fuel →
        pFields fuel (w₁ ++ '"' :: (escList k.data
          ++ '"' :: (w₂ ++ ':' :: (w₃ ++ (s₀ ++ (w₄ ++ '\x7d' :: rest))))))
          = some ([(k, vv)], rest) := by
      intro rest fuel hfe
      cases fuel with
      | zero => exact absurd hfe (Nat.not_lt_zero _)
      | succ f =>
        have hjv : nodesJ vv < f := by
          simp only [nodesF] at hfe
          omega
        simp only [pFields]
        rw [skipWs_append_ws hw₁, skipWs_cons_not_ws (by decide)]
        have hlen : k.data.length
            < (escList k.data
              ++ '"' :: (w₂ ++ ':' :: (w₃ ++ (s₀ ++ (w₄ ++ '\x7d' :: rest))))).length
                + 1 := by
          have := escList_length k.data
          simp only [List.length_append, List.length_cons]
          omega
        simp only [pStrBody_complete k.data _ _ hlen]
        rw [skipWs_append_ws hw₂, skipWs_cons_not_ws (by decide)]
        simp only [List.head?_cons, List.tail_cons, Option.some.injEq, reduceIte]
        have hpv := ihv.1 w₃ (w₄ ++ '\x7d' :: rest) f hw₃ hjv
          (numSafe_append_ws hw₄ (by decide) rest)
        simp only [List.append_assoc] at hpv
        simp only [hpv]
        rw [skipWs_append_ws hw₄, skipWs_cons_not_ws (by decide)]
        simp only [List.head?_cons, List.tail_cons, Option.some.injEq, reduceIte]
        rfl
    refine ⟨?_, ?_, ?_⟩
    · intro w rest fuel hw hf hns
      cases fuel with
      | zero => exact absurd hf (Nat.not_lt_zero _)
      | succ f =>
        simp only [List.append_assoc, List.cons_append, List.singleton_append,
          List.nil_append]
        simp only [pVal, skipWs_append_ws hw,
          skipWs_cons_not_ws (show isWsChar '\x7b' = false by decide)]
        simp only [reduceIte]
        rw [skipWs_append_ws hw₁, skipWs_cons_not_ws (by decide)]
        simp only [List.head?_cons, Option.some.injEq, reduceIte]
        rw [← pFields_ws hw₁ f ('"' :: (escList k.data
          ++ '"' :: (w₂ ++ ':' :: (w₃ ++ (s₀ ++ (w₄ ++ '\x7d' :: rest))))))]
        rw [hB rest f (by
          simp only [nodesJ] at hf
          omega)]
        rfl
    · intro es t hv; cases hv
    · intro fs' t' hv heq hne' rest fuel hfe
      cases hv
      injection heq with hhead htail
      rw [← htail]
      have := hB rest fuel hfe
      simpa [List.append_assoc, List.append_eq, List.cons_append,
        List.singleton_append] using this
  | objCons k vv s₀ w₁ w₂ w₃ w₄ fs t hv hw₁ hw₂ hw₃ hw₄ hne ht ihv iht =>
    have hB : ∀ (rest : List Char) (fuel : Nat), nodesF ((k, vv) :: fs) < fuel →
        pFields fuel (w₁ ++ '"' :: (escList k.data
          ++ '"' :: (w₂ ++ ':' :: (w₃ ++ (s₀ ++ (w₄ ++ ',' :: (t ++ rest)))))))
          = some ((k, vv) :: fs, rest) := by
      intro rest fuel hfe
      cases fuel with
      | zero => exact absurd hfe (Nat.not_lt_zero _)
      | succ f =>
        have hjv : nodesJ vv < f := by
          simp only [nodesF] at hfe
          omega
        have hlfs : nodesF fs < f := by
          simp only [nodesF] at hfe
          have := nodesJ_pos vv
          omega
        simp only [pFields]
        rw [skipWs_append_ws hw₁, skipWs_cons_not_ws (by decide)]
        have hlen : k.data.length
            < (escList k.data
              ++ '"' :: (w₂ ++ ':' :: (w₃ ++ (s₀
                ++ (w₄ ++ ',' :: (t ++ rest)))))).length + 1 := by
          have := escList_length k.data
          simp only [List.length_append, List.length_cons]
          omega
        simp only [pStrBody_complete k.data _ _ hlen]
        rw [skipWs_append_ws hw₂, skipWs_cons_not_ws (by decide)]
        simp only [List.head?_cons, List.tail_cons, Option.some.injEq, reduceIte]
        have hpv := ihv.1 w₃ (w₄ ++ ',' :: (t ++ rest)) f hw₃ hjv
          (numSafe_append_ws hw₄ (by decide) (t ++ rest))
        simp only [List.append_assoc] at hpv
        simp only [hpv]
        rw [skipWs_append_ws hw₄, skipWs_cons_not_ws (by decide)]
        simp only [List.head?_cons, List.tail_cons, Option.some.injEq, reduceIte]
        rw [iht.2.2 fs t rfl rfl hne rest f hlfs]
        rfl
    refine ⟨?_, ?_, ?_⟩
    · intro w rest fuel hw hf hns
      cases fuel with
      | zero => exact absurd hf (Nat.not_lt_zero _)
      | succ f =>
        simp only [List.append_assoc, List.cons_append, List.singleton_append,
          List.nil_append]
        simp only [pVal, skipWs_append_ws hw,
          skipWs_cons_not_ws (show isWsChar '\x7b' = false by decide)]
        simp only [reduceIte]
        rw [skipWs_append_ws hw₁, skipWs_cons_not_ws (by decide)]
        simp only [List.head?_cons, Option.some.injEq, reduceIte]
        rw [← pFields_ws hw₁ f ('"' :: (escList k.data
          ++ '"' :: (w₂ ++ ':' :: (w₃ ++ (s₀ ++ (w₄ ++ ',' :: (t ++ rest)))))))]
        rw [hB rest f (by
          simp only [nodesJ] at hf
          omega)]
        rfl
    · intro es t' hv; cases hv
    · intro fs' t' hv heq hne' rest fuel hfe
      cases hv
      injection heq with hhead htail
      rw [← htail]
      have := hB rest fuel hfe
      simpa [List.append_assoc, List.append_eq, List.cons_append,
        List.singleton_append] using this

end GeminiExif

namespace GeminiExif

/-- A rendered text is at least as long as the node count of its value,
so input length plus one is always enough fuel. -/
theorem renders_nodes_le {v : JVal} {s : List Char} (h : Renders v s) :
    nodesJ v ≤ s.length := by
  induction h with
  | nullR => simp [nodesJ]
  | trueR => simp [nodesJ]
  | falseR => simp [nodesJ]
  | strR str => simp [nodesJ]
  | numR lit hv =>
    cases hl : lit.data with
    | nil => rw [hl] at hv; exact absurd hv (by decide)
    | cons c t => simp [nodesJ, hl]
  | arrNil w hw => simp [nodesJ, nodesL]
  | arrOne e s₀ w₁ w₂ he hw₁ hw₂ ihe =>
    simp only [nodesJ, nodesL, List.length_cons, List.length_append,
      List.length_singleton] at *
    omega
  | arrCons e s₀ w₁ w₂ es t he hw₁ hw₂ hne ht ihe iht =>
    simp only [nodesJ, nodesL, List.length_cons, List.length_append] at *
    omega
  | objNil w hw => simp [nodesJ, nodesF]
  | objOne k vv s₀ w₁ w₂ w₃ w₄ hv hw₁ hw₂ hw₃ hw₄ ihv =>
    simp only [nodesJ, nodesF, List.length_cons, List.length_append,
      List.length_singleton] at *
    omega
  | objCons k vv s₀ w₁ w₂ w₃ w₄ fs t hv hw₁ hw₂ hw₃ hw₄ hne ht ihv iht =>
    simp only [nodesJ, nodesF, List.length_cons, List.length_append] at *
    omega

/-- JSON.parse reads any rendering of v back as v. -/
theorem parseJson_of_renders {v : JVal} {s : String} (h : Renders v s.data) :
    parseJson s = some v := by
  have hfuel : nodesJ v < s.length + 1 := by
    have := renders_nodes_le h
    have hlen : s.length = s.data.length := rfl
    omega
  have hp := (renders_complete h).1 [] [] (s.length + 1) IsWsL.nil hfuel rfl
  simp only [List.nil_append, List.append_nil] at hp
  unfold parseJson
  rw [hp]
  rfl

end GeminiExif

namespace GeminiExif

theorem data_append (a b : String) : (a ++ b).data = a.data ++ b.data := rfl

/-- The compact printer emits texts of the grammar whenever every number
literal in the value is grammatical. -/
theorem printJ_renders :
    ∀ (n : Nat) (v : JVal), nodesJ v ≤ n → litsOk v = true →
      Renders v (printJ v).data := by
  intro n
  induction n with
  | zero =>
    intro v hv
    have := nodesJ_pos v
    omega
  | succ n ih =>
    intro v hn hlits
    match v with
    | .null => exact Renders.nullR
    | .bool true => exact Renders.trueR
    | .bool false => exact Renders.falseR
    | .num lit => exact Renders.numR lit hlits
    | .str s => exact Renders.strR s
    | .arr [] =>
      have := Renders.arrNil [] IsWsL.nil
      simpa using this
    | .arr [e] =>
      have hne : nodesJ e ≤ n := by
        simp only [nodesJ, nodesL] at hn
        omega
      have hle : litsOk e = true := by
        simp only [litsOk, litsOkL, Bool.and_eq_true] at hlits
        exact hlits.1
      have hr := ih e hne hle
      have := Renders.arrOne e (printJ e).data [] [] hr IsWsL.nil IsWsL.nil
      simp only [List.nil_append, List.append_nil] at this
      show Renders (JVal.arr [e]) (printJ (JVal.arr [e])).data
      rw [show printJ (JVal.arr [e]) = "[" ++ printJ e ++ printListJ [] ++ "]" from rfl]
      simp only [printListJ, data_append, List.append_assoc]
      simpa using this
    | .arr (e :: e' :: es) =>
      have hne : nodesJ e ≤ n := by
        simp only [nodesJ, nodesL] at hn
        omega
      have hnt : nodesJ (.arr (e' :: es)) ≤ n := by
        simp only [nodesJ, nodesL] at hn ⊢
        have := nodesJ_pos e
        omega
      have hle : litsOk e = true := by
        simp only [litsOk, litsOkL, Bool.and_eq_true] at hlits
        exact hlits.1
      have hlt : litsOk (.arr (e' :: es)) = true := by
        simp only [litsOk, litsOkL, Bool.and_eq_true] at hlits ⊢
        exact hlits.2
      have hr := ih e hne hle
      have ht := ih (.arr (e' :: es)) hnt hlt
      rw [show printJ (.arr (e' :: es))
          = "[" ++ printJ e' ++ printListJ es ++ "]" from rfl] at ht
      have := Renders.arrCons e (printJ e).data [] []
        (e' :: es) ((printJ e' ++ printListJ es ++ "]").data) hr IsWsL.nil IsWsL.nil
        (by simp) (by simpa [data_append] using ht)
      simp only [List.nil_append, List.append_nil] at this
      show Renders _ (printJ (.arr (e :: e' :: es))).data
      rw [show printJ (.arr (e :: e' :: es))
          = "[" ++ printJ e ++ printListJ (e' :: es) ++ "]" from rfl]
      rw [show printListJ (e' :: es) = "," ++ printJ e' ++ printListJ es from rfl]
      simp only [data_append, List.append_assoc]
      simpa [data_append, List.append_assoc] using this
    | .obj [] =>
      have := Renders.objNil [] IsWsL.nil
      simpa using this
    | .obj [(k, vv)] =>
      have hnv : nodesJ vv ≤ n := by
        simp only [nodesJ, nodesF] at hn
        omega
      have hlv : litsOk vv = true := by
        simp only [litsOk, litsOkF, Bool.and_eq_true] at hlits
        exact hlits.1
      have hr := ih vv hnv hlv
      have := Renders.objOne k vv (printJ vv).data [] [] [] [] hr
        IsWsL.nil IsWsL.nil IsWsL.nil IsWsL.nil
      simp only [List.nil_append, List.append_nil] at this
      show Renders _ (printJ (.obj [(k, vv)])).data
      rw [show printJ (.obj [(k, vv)])
          = "\x7b" ++ quoteStr k ++ ":" ++ printJ vv ++ printFieldsJ [] ++ "\x7d" from rfl]
      simp only [printFieldsJ, data_append, List.append_assoc, quoteStr]
      simpa [List.append_assoc] using this
    | .obj ((k, vv) :: f' :: fs) =>
      have hnv : nodesJ vv ≤ n := by
        simp only [nodesJ, nodesF] at hn
        omega
      have hnt : nodesJ (.obj (f' :: fs)) ≤ n := by
        simp only [nodesJ, nodesF] at hn ⊢
        have := nodesJ_pos vv
        omega
      have hlv : litsOk vv = true := by
        simp only [litsOk, litsOkF, Bool.and_eq_true] at hlits
        exact hlits.1
      have hlt : litsOk (.obj (f' :: fs)) = true := by
        simp only [litsOk, litsOkF, Bool.and_eq_true] at hlits ⊢
        exact hlits.2
      have hr := ih vv hnv hlv
      have ht := ih (.obj (f' :: fs)) hnt hlt
      obtain ⟨k', v'⟩ := f'
      rw [show printJ (.obj ((k', v') :: fs))
          = "\x7b" ++ quoteStr k' ++ ":" ++ printJ v' ++ printFieldsJ fs ++ "\x7d" from
        rfl] at ht
      have := Renders.objCons k vv (printJ vv).data [] [] [] []
        ((k', v') :: fs)
        ((quoteStr k' ++ ":" ++ printJ v' ++ printFieldsJ fs ++ "\x7d").data) hr
        IsWsL.nil IsWsL.nil IsWsL.nil IsWsL.nil (by simp)
        (by simpa [data_append] using ht)
      simp only [List.nil_append, List.append_nil] at this
      show Renders _ (printJ (.obj ((k, vv) :: (k', v') :: fs))).data
      rw [show printJ (.obj ((k, vv) :: (k', v') :: fs))
          = "\x7b" ++ quoteStr k ++ ":" ++ printJ vv
            ++ printFieldsJ ((k', v') :: fs) ++ "\x7d" from rfl]
      rw [show printFieldsJ ((k', v') :: fs)
          = "," ++ quoteStr k' ++ ":" ++ printJ v' ++ printFieldsJ fs from rfl]
      simp only [data_append, List.append_assoc, quoteStr]
      simpa [List.append_assoc, quoteStr] using this

end GeminiExif

namespace GeminiExif

/-- Printing then parsing is the identity on values with grammatical
number literals: the composed JSON.parse-of-JSON.stringify guarantee. -/
theorem parseJson_printJ {v : JVal} (h : litsOk v = true) :
    parseJson (printJ v) = some v :=
  parseJson_of_renders (printJ_renders (nodesJ v) v (Nat.le_refl _) h)

theorem metaToJson_litsOk (m : GenerationMetadata) : litsOk (metaToJson m) = true := by
  rcases m with ⟨mo, p, o, a, pm, fs⟩
  rcases o with _ | o <;> rcases a with _ | a <;> rcases pm with _ | pm <;>
    rcases fs with _ | fs <;>
    simp [metaToJson, litsOk, litsOkF]

theorem jGet_metaToJson_model (m : GenerationMetadata) :
    jGet (metaToJson m) "model" = some (.str (imageModelString m.model)) := by
  rcases m with ⟨mo, p, o, a, pm, fs⟩
  rcases o with _ | o <;> rcases a with _ | a <;> rcases pm with _ | pm <;>
    rcases fs with _ | fs <;>
    simp [metaToJson, jGet, List.find?]

theorem jGet_metaToJson_prompt (m : GenerationMetadata) :
    jGet (metaToJson m) "prompt" = some (.str m.prompt) := by
  rcases m with ⟨mo, p, o, a, pm, fs⟩
  rcases o with _ | o <;> rcases a with _ | a <;> rcases pm with _ | pm <;>
    rcases fs with _ | fs <;>
    simp [metaToJson, jGet, List.find?]

theorem metaOfJson_metaToJson (m : GenerationMetadata) :
    metaOfJson (metaToJson m) = some m := by
  rcases m with ⟨mo, p, o, a, pm, fs⟩
  rcases mo <;> rcases o with _ | o <;> rcases a with _ | a <;>
    rcases pm with _ | pm <;> rcases fs with _ | fs <;>
    first
    | (rcases a <;>
        simp [metaToJson, metaOfJson, jGetStr, jGet, List.find?, imageModelString,
          imageModelOfString?, aspectRatioString, aspectRatioOfString?, promptModeString,
          promptModeOfString?] <;> rcases pm <;> simp)
    | (simp [metaToJson, metaOfJson, jGetStr, jGet, List.find?, imageModelString,
        imageModelOfString?, aspectRatioString, aspectRatioOfString?, promptModeString,
        promptModeOfString?] <;> rcases pm <;> simp)

end GeminiExif

namespace GeminiExif

theorem imageModelString_ne_empty (mo : ImageModel) :
    (imageModelString mo == "") = false := by
  cases mo <;> decide

theorem printJ_metaToJson_head (m : GenerationMetadata) :
    (printJ (metaToJson m)).data.head? = some '\x7b' := rfl

theorem printJ_metaToJson_ne_empty (m : GenerationMetadata) :
    (printJ (metaToJson m) == "") = false := by
  refine beq_eq_false_iff_ne.mpr ?_
  intro h
  have := printJ_metaToJson_head m
  rw [h] at this
  cases this

end GeminiExif

namespace GeminiExif

theorem ind_ws (d : Nat) : IsWsL (ind d).data := by
  intro c hc
  simp only [ind] at hc
  have := List.eq_of_mem_replicate hc
  subst this
  decide

theorem iswsl_space : IsWsL [' '] := by
  intro c hc
  simp at hc
  subst hc
  decide

/-- The indented printer emits texts of the grammar.  The second and third
components render a nonempty array or object whose opening bracket is
followed by arbitrary whitespace and whose closing bracket is preceded by
arbitrary whitespace; this covers the indented layout and, with empty
whitespace, its trimmed, re-wrapped variant. -/
theorem prettyJ_renders :
    ∀ (n : Nat),
    (∀ (v : JVal) (d : Nat), nodesJ v ≤ n → litsOk v = true →
      Renders v (prettyJ v d).data)
    ∧ (∀ (e : JVal) (es : List JVal) (d : Nat) (w₁ wend : List Char),
      nodesL (e :: es) ≤ n → IsWsL w₁ → IsWsL wend → litsOk e = true →
      litsOkL es = true →
      Renders (.arr (e :: es))
        ('[' :: w₁ ++ ((prettyJ e d).data
          ++ ((prettyListJ es d).data ++ (wend ++ [']'])))))
    ∧ (∀ (k : String) (vv : JVal) (fs : List (String × JVal)) (d : Nat)
        (w₁ wend : List Char),
      nodesF ((k, vv) :: fs) ≤ n → IsWsL w₁ → IsWsL wend → litsOk vv = true →
      litsOkF fs = true →
      Renders (.obj ((k, vv) :: fs))
        ('\x7b' :: w₁ ++ ('"' :: escList k.data
          ++ '"' :: ':' :: ' ' :: ((prettyJ vv d).data
            ++ ((prettyFieldsJ fs d).data ++ (wend ++ ['\x7d'])))))) := by
  intro n
  induction n using Nat.strong_induction_on with
  | _ n ih =>
  refine ⟨?_, ?_, ?_⟩
  · intro v d hn hlits
    match v with
    | .null => exact Renders.nullR
    | .bool true => exact Renders.trueR
    | .bool false => exact Renders.falseR
    | .num lit => exact Renders.numR lit hlits
    | .str s => exact Renders.strR s
    | .arr [] =>
      have := Renders.arrNil [] IsWsL.nil
      simpa using this
    | .arr (e :: es) =>
      have hm : nodesL (e :: es) < n := by
        simp only [nodesJ] at hn
        omega
      have hl1 : litsOk e = true := by
        simp only [litsOk, litsOkL, Bool.and_eq_true] at hlits
        exact hlits.1
      have hl2 : litsOkL es = true := by
        simp only [litsOk, litsOkL, Bool.and_eq_true] at hlits
        exact hlits.2
      have hr := (ih (nodesL (e :: es)) hm).2.1 e es (d + 1)
        ('\n' :: (ind (d + 1)).data) ('\n' :: (ind d).data) (Nat.le_refl _)
        (IsWsL.cons (by decide) (ind_ws (d + 1)))
        (IsWsL.cons (by decide) (ind_ws d)) hl1 hl2
      show Renders _ (prettyJ (.arr (e :: es)) d).data
      rw [show prettyJ (.arr (e :: es)) d
          = "[\n" ++ ind (d + 1) ++ prettyJ e (d + 1) ++ prettyListJ es (d + 1)
            ++ "\n" ++ ind d ++ "]" from rfl]
      simp only [data_append, List.append_assoc]
      simpa [List.append_assoc] using hr
    | .obj [] =>
      have := Renders.objNil [] IsWsL.nil
      simpa using this
    | .obj ((k, vv) :: fs) =>
      have hm : nodesF ((k, vv) :: fs) < n := by
        simp only [nodesJ] at hn
        omega
      have hl1 : litsOk vv = true := by
        simp only [litsOk, litsOkF, Bool.and_eq_true] at hlits
        exact hlits.1
      have hl2 : litsOkF fs = true := by
        simp only [litsOk, litsOkF, Bool.and_eq_true] at hlits
        exact hlits.2
      have hr := (ih (nodesF ((k, vv) :: fs)) hm).2.2 k vv fs (d + 1)
        ('\n' :: (ind (d + 1)).data) ('\n' :: (ind d).data) (Nat.le_refl _)
        (IsWsL.cons (by decide) (ind_ws (d + 1)))
        (IsWsL.cons (by decide) (ind_ws d)) hl1 hl2
      show Renders _ (prettyJ (.obj ((k, vv) :: fs)) d).data
      rw [show prettyJ (.obj ((k, vv) :: fs)) d
          = "\x7b\n" ++ ind (d + 1) ++ quoteStr k ++ ": " ++ prettyJ vv (d + 1)
            ++ prettyFieldsJ fs (d + 1) ++ "\n" ++ ind d ++ "\x7d" from rfl]
      simp only [data_append, List.append_assoc, quoteStr]
      simpa [List.append_assoc, quoteStr] using hr
  · intro e es d w₁ wend hn hw₁ hwend hl1 hl2
    match es with
    | [] =>
      have hne : nodesJ e < n := by
        simp only [nodesL] at hn
        omega
      have hr := (ih (nodesJ e) hne).1 e d (Nat.le_refl _) hl1
      have := Renders.arrOne e (prettyJ e d).data w₁ wend hr hw₁ hwend
      simpa [prettyListJ, List.append_assoc] using this
    | e' :: es' =>
      have hne : nodesJ e < n := by
        simp only [nodesL] at hn ⊢
        omega
      have hm : nodesL (e' :: es') < n := by
        simp only [nodesL] at hn ⊢
        have := nodesJ_pos e
        omega
      have hl1' : litsOk e' = true := by
        simp only [litsOkL, Bool.and_eq_true] at hl2
        exact hl2.1
      have hl2' : litsOkL es' = true := by
        simp only [litsOkL, Bool.and_eq_true] at hl2
        exact hl2.2
      have hr := (ih (nodesJ e) hne).1 e d (Nat.le_refl _) hl1
      have ht := (ih (nodesL (e' :: es')) hm).2.1 e' es' d
        ('\n' :: (ind d).data) wend (Nat.le_refl _)
        (IsWsL.cons (by decide) (ind_ws d)) hwend hl1' hl2'
      have := Renders.arrCons e (prettyJ e d).data w₁ [] (e' :: es')
        ('\n' :: (ind d).data ++ ((prettyJ e' d).data
          ++ ((prettyListJ es' d).data ++ (wend ++ [']']))))
        hr hw₁ IsWsL.nil (by simp) (by simpa using ht)
      rw [show prettyListJ (e' :: es') d
          = ",\n" ++ ind d ++ prettyJ e' d ++ prettyListJ es' d from rfl]
      simp only [data_append, List.append_assoc]
      simpa [List.append_assoc] using this
  · intro k vv fs d w₁ wend hn hw₁ hwend hl1 hl2
    match fs with
    | [] =>
      have hnv : nodesJ vv < n := by
        simp only [nodesF] at hn
        omega
      have hr := (ih (nodesJ vv) hnv).1 vv d (Nat.le_refl _) hl1
      have := Renders.objOne k vv (prettyJ vv d).data w₁ [] [' '] wend hr hw₁
        IsWsL.nil iswsl_space hwend
      simpa [prettyFieldsJ, List.append_assoc] using this
    | (k', v') :: fs' =>
      have hnv : nodesJ vv < n := by
        simp only [nodesF] at hn ⊢
        omega
      have hm : nodesF ((k', v') :: fs') < n := by
        simp only [nodesF] at hn ⊢
        have := nodesJ_pos vv
        omega
      have hl1' : litsOk v' = true := by
        simp only [litsOkF, Bool.and_eq_true] at hl2
        exact hl2.1
      have hl2' : litsOkF fs' = true := by
        simp only [litsOkF, Bool.and_eq_true] at hl2
        exact hl2.2
      have hr := (ih (nodesJ vv) hnv).1 vv d (Nat.le_refl _) hl1
      have ht := (ih (nodesF ((k', v') :: fs')) hm).2.2 k' v' fs' d
        ('\n' :: (ind d).data) wend (Nat.le_refl _)
        (IsWsL.cons (by decide) (ind_ws d)) hwend hl1' hl2'
      have := Renders.objCons k vv (prettyJ vv d).data w₁ [] [' '] []
        ((k', v') :: fs')
        ('\n' :: (ind d).data ++ ('"' :: escList k'.data
          ++ '"' :: ':' :: ' ' :: ((prettyJ v' d).data
            ++ ((prettyFieldsJ fs' d).data ++ (wend ++ ['\x7d'])))))
        hr hw₁ IsWsL.nil iswsl_space IsWsL.nil (by simp) (by simpa using ht)
      rw [show prettyFieldsJ ((k', v') :: fs') d
          = ",\n" ++ ind d ++ quoteStr k' ++ ": " ++ prettyJ v' d
            ++ prettyFieldsJ fs' d from rfl]
      simp only [data_append, List.append_assoc, quoteStr]
      simpa [List.append_assoc, quoteStr] using this

end GeminiExif

namespace GeminiExif

/-! ### Shape of the indented output: first and last characters -/

theorem num_lit_not_ws {lit : String} (h : isValidNumLit lit.data = true)
    {c : Char} (hc : c ∈ lit.data) : isWsChar c = false := by
  have hall := validNumLit_all h
  rw [List.all_eq_true] at hall
  have hnum := hall c hc
  cases hcase : isWsChar c
  · rfl
  · rw [ws_not_num hcase] at hnum
    exact absurd hnum (by decide)

theorem prettyJ_head_ws (v : JVal) (d : Nat) (h : litsOk v = true) :
    ∃ c, (prettyJ v d).data.head? = some c ∧ isWsChar c = false := by
  match v with
  | .null => exact ⟨'n', rfl, by decide⟩
  | .bool true => exact ⟨'t', rfl, by decide⟩
  | .bool false => exact ⟨'f', rfl, by decide⟩
  | .str s => exact ⟨'"', rfl, by decide⟩
  | .arr [] => exact ⟨'[', rfl, by decide⟩
  | .arr (e :: es) => exact ⟨'[', rfl, by decide⟩
  | .obj [] => exact ⟨'\x7b', rfl, by decide⟩
  | .obj (f :: fs) => exact ⟨'\x7b', rfl, by decide⟩
  | .num lit =>
    simp only [litsOk] at h
    cases hl : lit.data with
    | nil =>
      rw [hl, validNumLit_nil] at h
      exact absurd h (by decide)
    | cons c t =>
      refine ⟨c, ?_, ?_⟩
      · show lit.data.head? = some c
        rw [hl]
        rfl
      · have hv : isValidNumLit (c :: t) = true := by rw [← hl]; exact h
        rcases validNumLit_head hv with hd | rfl
        · exact digit_not_ws hd
        · decide

theorem prettyJ_ne_nil (v : JVal) (d : Nat) (h : litsOk v = true) :
    (prettyJ v d).data ≠ [] := by
  obtain ⟨c, hc, -⟩ := prettyJ_head_ws v d h
  intro hx
  rw [hx] at hc
  exact absurd hc (by simp)

theorem glast_append {y : List Char} (x : List Char) (hy : y ≠ []) :
    (x ++ y).getLast? = y.getLast? := by
  rw [List.getLast?_append]
  cases hg : y.getLast? with
  | some a => rfl
  | none =>
    rw [List.getLast?_eq_none_iff] at hg
    exact absurd hg hy

theorem prettyJ_last_ws (v : JVal) (d : Nat) (h : litsOk v = true) :
    ∃ c, (prettyJ v d).data.getLast? = some c ∧ isWsChar c = false := by
  match v with
  | .null => exact ⟨'l', rfl, by decide⟩
  | .bool true => exact ⟨'e', rfl, by decide⟩
  | .bool false => exact ⟨'e', rfl, by decide⟩
  | .str s =>
    refine ⟨'"', ?_, by decide⟩
    show ('"' :: escList s.data ++ ['"']).getLast? = some '"'
    rw [List.getLast?_concat]
  | .arr [] => exact ⟨']', rfl, by decide⟩
  | .arr (e :: es) =>
    refine ⟨']', ?_, by decide⟩
    rw [show prettyJ (.arr (e :: es)) d
        = ("[\n" ++ ind (d + 1) ++ prettyJ e (d + 1) ++ prettyListJ es (d + 1)
          ++ "\n" ++ ind d) ++ "]" from rfl]
    rw [data_append]
    exact List.getLast?_concat _
  | .obj [] => exact ⟨'\x7d', rfl, by decide⟩
  | .obj ((k, vv) :: fs) =>
    refine ⟨'\x7d', ?_, by decide⟩
    rw [show prettyJ (.obj ((k, vv) :: fs)) d
        = ("\x7b\n" ++ ind (d + 1) ++ quoteStr k ++ ": " ++ prettyJ vv (d + 1)
          ++ prettyFieldsJ fs (d + 1) ++ "\n" ++ ind d) ++ "\x7d" from rfl]
    rw [data_append]
    exact List.getLast?_concat _
  | .num lit =>
    simp only [litsOk] at h
    have hne : lit.data ≠ [] := by
      intro hx
      rw [hx, validNumLit_nil] at h
      exact absurd h (by decide)
    cases hg : (prettyJ (.num lit) d).data.getLast? with
    | none =>
      rw [show (prettyJ (.num lit) d).data = lit.data from rfl,
        List.getLast?_eq_none_iff] at hg
      exact absurd hg hne
    | some c =>
      refine ⟨c, rfl, ?_⟩
      have hmem : c ∈ lit.data := List.mem_of_mem_getLast? hg
      exact num_lit_not_ws h hmem

theorem arr_body_last_ws (e : JVal) (es : List JVal) (d : Nat)
    (h1 : litsOk e = true) (h2 : litsOkL es = true) :
    ∃ c, ((prettyJ e d).data ++ (prettyListJ es d).data).getLast? = some c
      ∧ isWsChar c = false := by
  induction es generalizing e with
  | nil =>
    obtain ⟨c, hc, hw⟩ := prettyJ_last_ws e d h1
    exact ⟨c, by simpa [prettyListJ] using hc, hw⟩
  | cons e' es' ih =>
    simp only [litsOkL, Bool.and_eq_true] at h2
    obtain ⟨c, hc, hw⟩ := ih e' h2.1 h2.2
    refine ⟨c, ?_, hw⟩
    rw [show prettyListJ (e' :: es') d
        = ",\n" ++ ind d ++ prettyJ e' d ++ prettyListJ es' d from rfl]
    have hbody : (prettyJ e' d).data ++ (prettyListJ es' d).data ≠ [] := by
      intro hx
      exact prettyJ_ne_nil e' d h2.1 (List.append_eq_nil.mp hx).1
    calc ((prettyJ e d).data
          ++ (",\n" ++ ind d ++ prettyJ e' d ++ prettyListJ es' d).data).getLast?
        = ((prettyJ e d).data ++ ((",\n" ++ ind d).data
            ++ ((prettyJ e' d).data ++ (prettyListJ es' d).data))).getLast? := by
          simp only [data_append, List.append_assoc]
      _ = ((prettyJ e' d).data ++ (prettyListJ es' d).data).getLast? := by
          rw [← List.append_assoc]
          exact glast_append _ hbody
      _ = some c := hc

/-! ### Trimming around a whitespace-wrapped core -/

theorem trimList_wrap (w₁ w₂ core : List Char) (h₁ : IsWsL w₁) (h₂ : IsWsL w₂)
    (hh : ∃ c, core.head? = some c ∧ isWsChar c = false)
    (hl : ∃ c, core.getLast? = some c ∧ isWsChar c = false) :
    trimList (w₁ ++ (core ++ w₂)) = core := by
  obtain ⟨ch, hch, hchw⟩ := hh
  obtain ⟨cl, hcl, hclw⟩ := hl
  unfold trimList
  have hd1 : (w₁ ++ (core ++ w₂)).dropWhile (fun c => isWsChar c)
      = (core ++ w₂).dropWhile (fun c => isWsChar c) :=
    dropWhile_append_all h₁ _
  rw [hd1]
  cases hc : core with
  | nil => rw [hc] at hch; exact absurd hch (by simp)
  | cons c₀ t₀ =>
    rw [hc] at hch
    have hc0 : c₀ = ch := by
      have : some c₀ = some ch := hch
      injection this
    subst hc0
    rw [show ((c₀ :: t₀) ++ w₂) = c₀ :: (t₀ ++ w₂) from rfl]
    rw [List.dropWhile_cons_of_neg (by simp [hchw])]
    have hrev : (c₀ :: (t₀ ++ w₂)).reverse
        = w₂.reverse ++ (c₀ :: t₀).reverse := by
      simp [List.reverse_cons, List.append_assoc]
    rw [hrev]
    have hw₂r : IsWsL w₂.reverse := by
      intro c hcm
      exact h₂ c (List.mem_reverse.mp hcm)
    rw [dropWhile_append_all hw₂r]
    have hlast : (c₀ :: t₀).reverse.head? = some cl := by
      rw [List.head?_reverse, ← hc, hcl]
    cases hr : (c₀ :: t₀).reverse with
    | nil => exact absurd (congrArg List.length hr) (by simp)
    | cons r₀ rs =>
      rw [hr] at hlast
      have hr0 : r₀ = cl := by
        have : some r₀ = some cl := hlast
        injection this
      subst hr0
      rw [List.dropWhile_cons_of_neg (by simp [hclw])]
      rw [← hr, List.reverse_reverse]

theorem jsTrim_of_wrap {w₁ w₂ core : List Char} (h₁ : IsWsL w₁) (h₂ : IsWsL w₂)
    (hh : ∃ c, core.head? = some c ∧ isWsChar c = false)
    (hl : ∃ c, core.getLast? = some c ∧ isWsChar c = false) :
    jsTrim ⟨w₁ ++ (core ++ w₂)⟩ = ⟨core⟩ := by
  show (⟨trimList (w₁ ++ (core ++ w₂))⟩ : String) = ⟨core⟩
  rw [trimList_wrap w₁ w₂ core h₁ h₂ hh hl]

end GeminiExif

namespace GeminiExif

theorem head?_append_of_some {x : List Char} (y : List Char) {c : Char}
    (h : x.head? = some c) : (x ++ y).head? = some c := by
  cases x with
  | nil => exact absurd h (by simp)
  | cons a t => simpa using h


end GeminiExif

namespace GeminiExif

/-! ## The claims -/

/-- Claim C1: embed-then-extract round trip.  For every generation record
with a non-empty prompt (every model string is non-empty), on a decodable
source image with a working canvas context and a non-throwing EXIF
insertion, embedding writes JSON.stringify of the record into the image
description tag, extraction reads it back as a structured record equal to
the serialized value, and deserializing that value recovers the record
field for field, for all model, promptMode and aspectRatio combinations. -/
theorem claim1 (R : GenerationMetadata) (env : EmbedEnv) (mimeType : String)
    (hctx : env.ctxOk = true) (hins : env.insertThrows = false) (hp : R.prompt ≠ "") :
    embedMetadataInImage .decodable mimeType R env
      = .ok { imageDescription := some (printJ (metaToJson R)) }
    ∧ extractMetadataFromImage (uploadOfEmbedded
        { imageDescription := some (printJ (metaToJson R)) })
      = .record (metaToJson R)
    ∧ metaOfJson (metaToJson R) = some R := by
  refine ⟨?_, ?_, metaOfJson_metaToJson R⟩
  · simp [embedMetadataInImage, hctx, hins]
  · show extractMetadataFromImage
      (.loaded { zeroth := some { imageDescription := some (.str (printJ (metaToJson R))) } })
      = .record (metaToJson R)
    simp only [extractMetadataFromImage, Option.bind]
    rw [printJ_metaToJson_ne_empty R]
    simp only [Bool.false_eq_true, if_false]
    rw [parseJson_printJ (metaToJson_litsOk R)]
    simp only [jGet_metaToJson_model, jGet_metaToJson_prompt, jTruthy]
    rw [imageModelString_ne_empty R.model, beq_eq_false_iff_ne.mpr hp]
    rfl

theorem claim1_witness :
    (({ ctxOk := true, insertThrows := false } : EmbedEnv).ctxOk = true)
    ∧ (({ ctxOk := true, insertThrows := false } : EmbedEnv).insertThrows = false)
    ∧ (({ model := .flash, prompt := "a fox" } : GenerationMetadata).prompt ≠ "")
    ∧ (embedMetadataInImage .decodable "image/png"
        { model := .flash, prompt := "a fox" } { ctxOk := true, insertThrows := false }
        = .ok { imageDescription := some (printJ (metaToJson
            { model := .flash, prompt := "a fox" })) }
      ∧ extractMetadataFromImage (uploadOfEmbedded
          { imageDescription := some (printJ (metaToJson
              { model := .flash, prompt := "a fox" })) })
        = .record (metaToJson { model := .flash, prompt := "a fox" })
      ∧ metaOfJson (metaToJson { model := .flash, prompt := "a fox" })
        = some { model := .flash, prompt := "a fox" }) :=
  ⟨rfl, rfl, by decide, claim1 { model := .flash, prompt := "a fox" }
    { ctxOk := true, insertThrows := false } "image/png" rfl rfl (by decide)⟩

/-- Claim C2: what extraction does with a bare JSON-array tag and with
plain text.  A tag holding a bare JSON array string is NOT classified as a
legacy prompt: extraction parses it, finds no truthy model or prompt field
on the non-null value, and returns nothing, so the upload handler reports
no metadata found.  Tag text that fails to parse as JSON is a legacy
string classified with valid = false; tag text that parses to JSON null
also becomes a legacy string (the metadata.model access throws a TypeError
that the inner catch maps to the tag text), and that text re-parses, so
handleFileSelect classifies it with valid = true.  The final conjunct
shows these are the only legacy sources: a legacy string either fails to
parse or parses to null, so a bare JSON array never reaches the legacy
branch. -/
theorem claim2 :
    extractMetadataFromImage (.loaded ⟨some ⟨some (.str "[\"a\"]")⟩⟩) = .notFound
    ∧ (classifyExtraction
        (extractMetadataFromImage (.loaded ⟨some ⟨some (.str "[\"a\"]")⟩⟩))).metadata = none
    ∧ (classifyExtraction
        (extractMetadataFromImage (.loaded ⟨some ⟨some (.str "[\"a\"]")⟩⟩))).isValid = false
    ∧ extractMetadataFromImage (.loaded ⟨some ⟨some (.str "a plain prompt")⟩⟩)
        = .legacy "a plain prompt"
    ∧ (classifyExtraction (.legacy "a plain prompt")).isValid = false
    ∧ (classifyExtraction (.legacy "a plain prompt")).metadata
        = some (legacyMetaObj "a plain prompt")
    ∧ extractMetadataFromImage (.loaded ⟨some ⟨some (.str "null")⟩⟩) = .legacy "null"
    ∧ (classifyExtraction (.legacy "null")).isValid = true
    ∧ (∀ (u : UploadedImage) (s : String),
        extractMetadataFromImage u = .legacy s →
        parseJson s = none ∨ parseJson s = some .null) := by
  refine ⟨rfl, rfl, rfl, rfl, rfl, rfl, rfl, rfl, ?_⟩
  intro u s hu
  cases u with
  | loadFails => simp [extractMetadataFromImage] at hu
  | loaded e =>
    simp only [extractMetadataFromImage] at hu
    rcases e with ⟨z⟩
    cases z with
    | none => simp at hu
    | some ifd =>
      rcases ifd with ⟨d⟩
      cases d with
      | none => simp at hu
      | some ev =>
        cases ev with
        | nonString => simp at hu
        | str s' =>
          simp only [Option.bind] at hu
          by_cases he : s' == ""
          · rw [if_pos he] at hu; exact absurd hu (by simp)
          · rw [if_neg he] at hu
            cases hp : parseJson s' with
            | some v =>
              rw [hp] at hu
              simp only [] at hu
              by_cases hn : jIsNull v = true
              · rw [if_pos hn] at hu
                have hs : s = s' := by cases hu; rfl
                subst hs
                right
                rw [hp]
                cases v with
                | null => rfl
                | bool b => exact absurd hn (by simp [jIsNull])
                | num lit => exact absurd hn (by simp [jIsNull])
                | str t => exact absurd hn (by simp [jIsNull])
                | arr es => exact absurd hn (by simp [jIsNull])
                | obj fs => exact absurd hn (by simp [jIsNull])
              · rw [if_neg hn] at hu
                split at hu
                · exact absurd hu (by simp)
                · exact absurd hu (by simp)
            | none =>
              rw [hp] at hu
              simp only [] at hu
              have hs : s = s' := by cases hu; rfl
              subst hs
              left
              exact hp

/-- Claim C3: batch behaviour under partial failure.  Promise.all is
fail-fast: a batch of five suggestion generations with two failures adds
no history items, surfaces no images, and reports the first failing call's
own error message, not a partial result; whereas the spec promises the
three successes are kept.  When all five fail, the reported error is again
the first call's message, not the aggregate message in the code, which is
unreachable. -/
theorem claim3 :
    (handleGenerateAllSuggestions ["s1", "s2", "s3", "s4", "s5"]
        [.ok [.decodable], .error "generation 2 failed", .ok [.decodable],
         .error "generation 4 failed", .ok [.decodable]]
        { ctxOk := true, insertThrows := false }
        ["i1", "i2", "i3", "i4", "i5"] 0 initialState).generationHistory = []
    ∧ (handleGenerateAllSuggestions ["s1", "s2", "s3", "s4", "s5"]
        [.ok [.decodable], .error "generation 2 failed", .ok [.decodable],
         .error "generation 4 failed", .ok [.decodable]]
        { ctxOk := true, insertThrows := false }
        ["i1", "i2", "i3", "i4", "i5"] 0 initialState).error = some "generation 2 failed"
    ∧ (handleGenerateAllSuggestions ["s1", "s2", "s3", "s4", "s5"]
        [.ok [.decodable], .error "generation 2 failed", .ok [.decodable],
         .error "generation 4 failed", .ok [.decodable]]
        { ctxOk := true, insertThrows := false }
        ["i1", "i2", "i3", "i4", "i5"] 0 initialState).isLoading = false
    ∧ (handleGenerateAllSuggestions ["s1", "s2", "s3", "s4", "s5"]
        [.ok [.decodable], .error "generation 2 failed", .ok [.decodable],
         .error "generation 4 failed", .ok [.decodable]]
        { ctxOk := true, insertThrows := false }
        ["i1", "i2", "i3", "i4", "i5"] 0 initialState).generatedImages = none
    ∧ (handleGenerateAllSuggestions ["s1", "s2", "s3", "s4", "s5"]
        [.error "generation 1 failed", .error "generation 2 failed", .error "generation 3 failed",
         .error "generation 4 failed", .error "generation 5 failed"]
        { ctxOk := true, insertThrows := false }
        ["i1", "i2", "i3", "i4", "i5"] 0 initialState).error = some "generation 1 failed"
    ∧ (handleGenerateAllSuggestions ["s1", "s2", "s3", "s4", "s5"]
        [.error "generation 1 failed", .error "generation 2 failed", .error "generation 3 failed",
         .error "generation 4 failed", .error "generation 5 failed"]
        { ctxOk := true, insertThrows := false }
        ["i1", "i2", "i3", "i4", "i5"] 0 initialState).generationHistory = [] := by
  refine ⟨rfl, rfl, rfl, rfl, rfl, rfl⟩

/-- Claim C4, amended: which model a refinement is attributed to depends on
the revision.  In src/App.tsx the refined record keeps the originating
record's model unchanged, Imagen included; only in the src/unnamed/part_010
revision is the refined record reattributed to the fast-edit model. -/
theorem claim4 (metadata : GenerationMetadata) (refinementPrompt filenameSlug : String) :
    (refineMetadataApp metadata refinementPrompt).model = metadata.model
    ∧ (refineMetadataPart10 metadata refinementPrompt filenameSlug).model
        = ImageModel.flash := by
  constructor
  · simp [refineMetadataApp]
  · simp [refineMetadataPart10]

theorem claim4_witness :
    (refineMetadataApp { model := .imagen, prompt := "a fox" } "make it blue").model
        = ({ model := .imagen, prompt := "a fox" } : GenerationMetadata).model
    ∧ (refineMetadataPart10 { model := .imagen, prompt := "a fox" }
        "make it blue" "slug").model = ImageModel.flash :=
  claim4 { model := .imagen, prompt := "a fox" } "make it blue" "slug"

/-- Claim C4, counterexample to the frozen claim: refining an
Imagen-attributed record through the handleRefine of src/App.tsx keeps
model = imagen, so the resulting record's model is not the fast-edit
model. -/
theorem claim4_counterexample :
    (refineMetadataApp
      { model := .imagen, prompt := "a fox",
        aspectRatio := some .r1x1 : GenerationMetadata } "make it blue").model
      = ImageModel.imagen
    ∧ (refineMetadataApp
      { model := .imagen, prompt := "a fox",
        aspectRatio := some .r1x1 : GenerationMetadata } "make it blue").model
      ≠ ImageModel.flash := by
  constructor
  · rfl
  · decide

/-- Claim C5: extraction never throws.  Every failure mode of reading the
EXIF data — the image fails to load, piexif.load throws, there is no 0th
IFD, the description tag is absent, holds a non-string value, or the empty
string — is caught and yields the not-found result. -/
theorem claim5 :
    extractMetadataFromImage .loadFails = .notFound
    ∧ extractMetadataFromImage (.loaded ⟨none⟩) = .notFound
    ∧ extractMetadataFromImage (.loaded ⟨some ⟨none⟩⟩) = .notFound
    ∧ extractMetadataFromImage (.loaded ⟨some ⟨some .nonString⟩⟩) = .notFound
    ∧ extractMetadataFromImage (.loaded ⟨some ⟨some (.str "")⟩⟩) = .notFound :=
  ⟨rfl, rfl, rfl, rfl, rfl⟩

/-- Claim C6: embedding degrades gracefully.  On a decodable image with a
working canvas context, a throwing EXIF dump/insert resolves with the
plain re-encoded JPEG carrying no metadata rather than rejecting; an
undecodable input image rejects with the hard load error. -/
theorem claim6 (metadata : GenerationMetadata) (mimeType : String) (env : EmbedEnv)
    (hctx : env.ctxOk = true) :
    embedMetadataInImage .decodable mimeType metadata
        { ctxOk := env.ctxOk, insertThrows := true } = .ok { imageDescription := none }
    ∧ embedMetadataInImage .undecodable mimeType metadata env
        = .error "Failed to load image for metadata embedding." := by
  constructor
  · simp [embedMetadataInImage, hctx]
  · rfl

theorem claim6_witness :
    ({ ctxOk := true, insertThrows := false } : EmbedEnv).ctxOk = true
    ∧ (embedMetadataInImage .decodable "image/png" { model := .flash, prompt := "p" }
        { ctxOk := true, insertThrows := true } = .ok { imageDescription := none }
      ∧ embedMetadataInImage .undecodable "image/png" { model := .flash, prompt := "p" }
        { ctxOk := true, insertThrows := false }
        = .error "Failed to load image for metadata embedding.") :=
  ⟨rfl, claim6 { model := .flash, prompt := "p" } "image/png"
    { ctxOk := true, insertThrows := false } rfl⟩

/-- Claim C7: revalidation of an edited prompt.  With an extracted record
present, if its model is the fast-edit model and its promptMode is the
structured mode then the result is valid exactly when the prompt parses as
JSON, with the two JSON messages; in every other case it is valid exactly
when the trimmed prompt is non-empty, with the two plain messages. -/
theorem claim7 (s : AppState) (m : GenerationMetadata)
    (h : s.extractedMetadata = some m) :
    ((m.model = .flash ∧ m.promptMode = some .json) →
      (appReducer s .validateEditedPrompt).isPromptValid = (parseJson m.prompt).isSome
      ∧ (appReducer s .validateEditedPrompt).extractionMessage
          = some (if (parseJson m.prompt).isSome then "The edited JSON prompt is valid."
                  else "The edited prompt is not valid JSON."))
    ∧ (¬(m.model = .flash ∧ m.promptMode = some .json) →
      ((appReducer s .validateEditedPrompt).isPromptValid = true ↔ jsTrim m.prompt ≠ "")
      ∧ (appReducer s .validateEditedPrompt).extractionMessage
          = some (if jsTrim m.prompt ≠ "" then "The edited prompt is valid."
                  else "Prompt cannot be empty.")) := by
  constructor
  · intro hm
    simp only [appReducer, h]
    rw [if_pos hm]
    cases hp : parseJson m.prompt <;> simp
  · intro hm
    simp only [appReducer, h]
    rw [if_neg hm]
    have hlen : (0 < (jsTrim m.prompt).length) ↔ jsTrim m.prompt ≠ "" := by
      constructor
      · intro hl he; rw [he] at hl; simp at hl
      · intro hne
        rcases Nat.eq_zero_or_pos (jsTrim m.prompt).length with h0 | h0
        · exact absurd (String.ext (List.length_eq_zero.mp h0)) hne
        · exact h0
    by_cases hc : jsTrim m.prompt ≠ ""
    · simp [hc, hlen.mpr hc]
    · push_neg at hc
      simp [hc]

theorem claim7_witness :
    (appReducer
        { initialState with
            extractedMetadata :=
              some { model := .flash, prompt := "[]", promptMode := some .json } }
        .validateEditedPrompt).isPromptValid
      = (parseJson ("[]" : String)).isSome
    ∧ (appReducer
        { initialState with
            extractedMetadata :=
              some { model := .flash, prompt := "[]", promptMode := some .json } }
        .validateEditedPrompt).extractionMessage
      = some (if (parseJson ("[]" : String)).isSome then "The edited JSON prompt is valid."
              else "The edited prompt is not valid JSON.") :=
  (claim7
    { initialState with
        extractedMetadata :=
          some { model := .flash, prompt := "[]", promptMode := some .json } }
    { model := .flash, prompt := "[]", promptMode := some .json } rfl).1 ⟨rfl, rfl⟩

/-- Claim C8: structured display strips the brackets and a no-op edit
round-trips.  For any stored prompt that parses as a JSON array: a
structured-mode text-area edit always stores the bracket-wrapped text;
the display form is the trimmed inner text of the indented rendering with
the enclosing square brackets stripped; and re-wrapping the unmodified
display form parses back to the original array. -/
theorem claim8 (es : List JVal) (p : String) (newValue : String)
    (hp : parseJson p = some (.arr es)) (hne : p ≠ "")
    (hl : litsOk (.arr es) = true) :
    promptAfterTextAreaChange .flash (some .json) newValue
        = "[" ++ newValue ++ "]"
    ∧ formatJsonDisplay p
        = jsTrim ⟨(jsTrim (prettyJ (.arr es) 0)).data.tail.dropLast⟩
    ∧ parseJson (promptAfterTextAreaChange .flash (some .json)
        (formatJsonDisplay p)) = some (.arr es) := by
  have hb : (p == "") = false := beq_eq_false_iff_ne.mpr hne
  refine ⟨by simp [promptAfterTextAreaChange], ?_⟩
  cases es with
  | nil =>
    have hfmt : formatJsonDisplay p = "" := by
      unfold formatJsonDisplay
      rw [hb]
      simp only [Bool.false_eq_true, if_false, hp]
      rfl
    constructor
    · rw [hfmt]
      rfl
    · rw [hfmt]
      rfl
  | cons e es' =>
    have hle : litsOk e = true := by
      simp only [litsOk, litsOkL, Bool.and_eq_true] at hl
      exact hl.1
    have hles : litsOkL es' = true := by
      simp only [litsOk, litsOkL, Bool.and_eq_true] at hl
      exact hl.2
    have hdata : (prettyJ (.arr (e :: es')) 0).data
        = ('[' :: (('\n' :: (ind 1).data)
            ++ (((prettyJ e 1).data ++ (prettyListJ es' 1).data) ++ ['\n'])))
          ++ [']'] := by
      rw [show prettyJ (.arr (e :: es')) 0
          = "[\n" ++ ind 1 ++ prettyJ e 1 ++ prettyListJ es' 1
            ++ "\n" ++ ind 0 ++ "]" from rfl]
      simp only [data_append, List.append_assoc, List.cons_append,
        List.nil_append]
      rfl
    have hhead : (prettyJ (.arr (e :: es')) 0).data.head? = some '[' := by
      rw [hdata]
      rfl
    have hlast : (prettyJ (.arr (e :: es')) 0).data.getLast? = some ']' := by
      rw [hdata]
      exact List.getLast?_concat _
    have htrim : jsTrim (prettyJ (.arr (e :: es')) 0)
        = prettyJ (.arr (e :: es')) 0 := by
      show (⟨trimList (prettyJ (.arr (e :: es')) 0).data⟩ : String) = _
      have := trimList_wrap [] [] (prettyJ (.arr (e :: es')) 0).data
        IsWsL.nil IsWsL.nil ⟨'[', hhead, by decide⟩ ⟨']', hlast, by decide⟩
      simp only [List.nil_append, List.append_nil] at this
      rw [this]
    have htd : (prettyJ (.arr (e :: es')) 0).data.tail.dropLast
        = ('\n' :: (ind 1).data)
          ++ (((prettyJ e 1).data ++ (prettyListJ es' 1).data) ++ ['\n']) := by
      rw [hdata]
      simp only [List.cons_append, List.tail_cons]
      rw [← List.cons_append, List.dropLast_concat]
    have hcorehead : ∃ c, ((prettyJ e 1).data
        ++ (prettyListJ es' 1).data).head? = some c ∧ isWsChar c = false := by
      obtain ⟨c, hc, hw⟩ := prettyJ_head_ws e 1 hle
      exact ⟨c, head?_append_of_some _ hc, hw⟩
    have hstr : jsTrim ⟨(prettyJ (.arr (e :: es')) 0).data.tail.dropLast⟩
        = ⟨(prettyJ e 1).data ++ (prettyListJ es' 1).data⟩ := by
      rw [htd]
      exact jsTrim_of_wrap (IsWsL.cons (by decide) (ind_ws 1))
        (IsWsL.cons (by decide) IsWsL.nil) hcorehead
        (arr_body_last_ws e es' 1 hle hles)
    have hfmt : formatJsonDisplay p
        = jsTrim ⟨(jsTrim (prettyJ (.arr (e :: es')) 0)).data.tail.dropLast⟩ := by
      unfold formatJsonDisplay
      rw [hb]
      simp only [Bool.false_eq_true, if_false, hp]
      rw [if_pos]
      rw [htrim]
      exact ⟨hhead, hlast⟩
    refine ⟨hfmt, ?_⟩
    rw [hfmt, htrim, hstr]
    have hwrap : promptAfterTextAreaChange .flash (some .json)
        ⟨(prettyJ e 1).data ++ (prettyListJ es' 1).data⟩
        = "[" ++ ⟨(prettyJ e 1).data ++ (prettyListJ es' 1).data⟩ ++ "]" := by
      simp [promptAfterTextAreaChange]
    rw [hwrap]
    have hr := (prettyJ_renders (nodesL (e :: es'))).2.1 e es' 1 [] []
      (Nat.le_refl _) IsWsL.nil IsWsL.nil hle hles
    simp only [List.nil_append] at hr
    have hrd : Renders (.arr (e :: es'))
        ("[" ++ (⟨(prettyJ e 1).data ++ (prettyListJ es' 1).data⟩ : String)
          ++ "]").data := by
      simp only [data_append, List.append_assoc]
      simpa [List.append_assoc] using hr
    exact parseJson_of_renders hrd

theorem claim8_witness :
    parseJson "[\"a\"]" = some (.arr [.str "a"])
    ∧ ("[\"a\"]" : String) ≠ ""
    ∧ litsOk (.arr [.str "a"]) = true
    ∧ (promptAfterTextAreaChange .flash (some .json) "x" = "[" ++ "x" ++ "]"
      ∧ formatJsonDisplay "[\"a\"]"
          = jsTrim ⟨(jsTrim (prettyJ (.arr [.str "a"]) 0)).data.tail.dropLast⟩
      ∧ parseJson (promptAfterTextAreaChange .flash (some .json)
          (formatJsonDisplay "[\"a\"]")) = some (.arr [.str "a"])) :=
  ⟨rfl, by decide, rfl,
    claim8 [.str "a"] "[\"a\"]" "x" rfl (by decide) rfl⟩

/-- Claim C9: the single selection and the batch selection are mutually
exclusive in every state reachable through the generation workflow: either
the active history id is unset or the active batch ids are unset. -/
theorem claim9 (s : AppState) (h : ReachableGen s) :
    s.activeHistoryId = none ∨ s.activeBatchHistoryIds = none := by
  induction h with
  | init => exact Or.inl rfl
  | start s hs ih => exact Or.inr rfl
  | singleSuccess s images item hs ih => exact Or.inr rfl
  | batchSuccess s images items hs ih => exact Or.inl rfl
  | select s item hs ih => exact Or.inr rfl
  | clear s hs ih => exact Or.inl rfl

theorem claim9_witness :
    ReachableGen initialState
    ∧ (initialState.activeHistoryId = none
      ∨ initialState.activeBatchHistoryIds = none) :=
  ⟨ReachableGen.init, claim9 initialState ReachableGen.init⟩

/-- Claim C10, amended: classification of implicit extraction.  A tag
whose content parses as a non-null JSON value yields a structured record
exactly when the value has truthy model and prompt fields, and otherwise
not-found, discarding the text; content parsing to JSON null instead
becomes a legacy string, because the metadata.model access throws a
TypeError that the inner catch maps to the tag text; the empty tag yields
not-found; every structured result has truthy model and prompt fields;
and number truthiness follows the IEEE-754 value of the literal, so the
literal 0 and an underflowing literal such as 1e-400 are falsy while the
nonzero literal 1 is truthy. -/
theorem claim10 :
    (∀ (s : String) (v : JVal), parseJson s = some v → jIsNull v = false →
      (jTruthy (jGet v "model") && jTruthy (jGet v "prompt")) = false →
      extractMetadataFromImage (.loaded ⟨some ⟨some (.str s)⟩⟩) = .notFound)
    ∧ (∀ (s : String) (v : JVal), parseJson s = some v →
      (jTruthy (jGet v "model") && jTruthy (jGet v "prompt")) = true →
      extractMetadataFromImage (.loaded ⟨some ⟨some (.str s)⟩⟩) = .record v)
    ∧ (∀ (s : String), parseJson s = some .null →
      extractMetadataFromImage (.loaded ⟨some ⟨some (.str s)⟩⟩) = .legacy s)
    ∧ extractMetadataFromImage (.loaded ⟨some ⟨some (.str "")⟩⟩) = .notFound
    ∧ (∀ (u : UploadedImage) (j : JVal),
        extractMetadataFromImage u = .record j →
        (jTruthy (jGet j "model") && jTruthy (jGet j "prompt")) = true)
    ∧ jTruthy (some (.num "0")) = false
    ∧ jTruthy (some (.num "1e-400")) = false
    ∧ jTruthy (some (.num "1")) = true := by
  have hne : ∀ (s : String) (v : JVal), parseJson s = some v → (s == "") = false := by
    intro s v hp
    have hs : s ≠ "" := by
      intro h
      subst h
      rw [show parseJson "" = none from rfl] at hp
      cases hp
    exact beq_eq_false_iff_ne.mpr hs
  refine ⟨?_, ?_, ?_, rfl, ?_, by decide, by decide, by decide⟩
  · intro s v hp hn ht
    simp only [extractMetadataFromImage, Option.bind]
    rw [if_neg (by simp [hne s v hp]), hp]
    simp only []
    rw [if_neg (by simp [hn]), if_neg (by simp [ht])]
  · intro s v hp ht
    have hn : jIsNull v = false := by
      cases v with
      | null => simp [jGet, jTruthy] at ht
      | bool b => rfl
      | num lit => rfl
      | str t => rfl
      | arr es => rfl
      | obj fs => rfl
    simp only [extractMetadataFromImage, Option.bind]
    rw [if_neg (by simp [hne s v hp]), hp]
    simp only []
    rw [if_neg (by simp [hn]), if_pos ht]
  · intro s hp
    simp only [extractMetadataFromImage, Option.bind]
    rw [if_neg (by simp [hne s .null hp]), hp]
    rfl
  · intro u j hu
    cases u with
    | loadFails => simp [extractMetadataFromImage] at hu
    | loaded e =>
      simp only [extractMetadataFromImage] at hu
      rcases e with ⟨z⟩
      cases z with
      | none => simp at hu
      | some ifd =>
        rcases ifd with ⟨d⟩
        cases d with
        | none => simp at hu
        | some ev =>
          cases ev with
          | nonString => simp at hu
          | str s' =>
            simp only [Option.bind] at hu
            by_cases he : s' == ""
            · rw [if_pos he] at hu; exact absurd hu (by simp)
            · rw [if_neg he] at hu
              cases hp : parseJson s' with
              | some v =>
                rw [hp] at hu
                simp only [] at hu
                by_cases hn : jIsNull v = true
                · rw [if_pos hn] at hu
                  exact absurd hu (by simp)
                · rw [if_neg hn] at hu
                  split at hu
                  · rename_i hcond
                    cases hu
                    exact hcond
                  · exact absurd hu (by simp)
              | none =>
                rw [hp] at hu
                simp only [] at hu
                exact absurd hu (by simp)

/-- Claim C10, counterexample to the frozen claim: the tag text null
parses as JSON and has no truthy model or prompt field, yet extraction
neither returns not-found nor discards the text: the metadata.model
access throws on the parsed null, the inner catch returns the tag text,
and the result is the legacy string. -/
theorem claim10_counterexample :
    parseJson "null" = some .null
    ∧ jTruthy (jGet .null "model") = false
    ∧ extractMetadataFromImage (.loaded ⟨some ⟨some (.str "null")⟩⟩) = .legacy "null"
    ∧ extractMetadataFromImage (.loaded ⟨some ⟨some (.str "null")⟩⟩) ≠ .notFound := by
  refine ⟨rfl, rfl, rfl, ?_⟩
  intro h
  rw [show extractMetadataFromImage (.loaded ⟨some ⟨some (.str "null")⟩⟩)
      = .legacy "null" from rfl] at h
  cases h

theorem claim10_witness :
    parseJson "\x7b\x7d" = some (.obj [])
    ∧ jIsNull (.obj []) = false
    ∧ (jTruthy (jGet (.obj []) "model") && jTruthy (jGet (.obj []) "prompt")) = false
    ∧ extractMetadataFromImage (.loaded ⟨some ⟨some (.str "\x7b\x7d")⟩⟩) = .notFound :=
  ⟨rfl, rfl, rfl, claim10.1 "\x7b\x7d" (.obj []) rfl rfl rfl⟩

end GeminiExif
